import Mathlib

/-!
# Verification of the PLONK prover core (`prover.py`)

This file is a shallow embedding of the five-round PLONK prover implemented in
`prover.py`, together with proofs settling the frozen claims about it.

The scalar field, the polynomial engine (`poly.py`), the trusted setup
(`setup.py`) and the transcript are external to the source file under
verification; where one of their operations decides a claim it is modelled
from the specification (its doc comment starts with `Modelled from the spec:`).
Polynomials are represented the way the source represents them: as lists of
field elements tagged with a basis.  Evaluation-form vectors over the domain
`H = {ω^0, …, ω^(n-1)}` (basis `LAGRANGE`) or over the coset
`{κ·μ^0, …, κ·μ^(4n-1)}` hold evaluations; `MONOMIAL` vectors hold
coefficients.  FFT-based conversions are modelled by their mathematical
contract: a forward FFT evaluates a coefficient list on the (shifted) domain,
an inverse FFT applies the inverse discrete Fourier transform.
-/

set_option linter.unusedSectionVars false
set_option linter.unusedVariables false

namespace PlonkProver

open Polynomial Finset

variable {F : Type} [Field F] [DecidableEq F]

/-- `isPrimRoot μ m`: `μ` is a primitive `m`-th root of unity of `F`
(`μ^m = 1` and no smaller positive power of `μ` is `1`). -/
def isPrimRoot (μ : F) (m : ℕ) : Prop :=
  μ ^ m = 1 ∧ ∀ k : ℕ, k < m → 0 < k → μ ^ k ≠ 1

instance (μ : F) (m : ℕ) : Decidable (isPrimRoot μ m) := by
  unfold isPrimRoot; infer_instance

theorem isPrimRoot.ne_zero {μ : F} {m : ℕ} (h : isPrimRoot μ m) (hm : 0 < m) :
    μ ≠ 0 := by
  intro h0
  have h1 := h.1
  rw [h0, zero_pow hm.ne'] at h1
  exact zero_ne_one h1

theorem isPrimRoot.powNeZero {μ : F} {m : ℕ} (h : isPrimRoot μ m) (hm : 0 < m)
    (k : ℕ) : μ ^ k ≠ 0 :=
  pow_ne_zero k (h.ne_zero hm)

theorem isPrimRoot.pow_inj {μ : F} {m : ℕ} (h : isPrimRoot μ m) (hm : 0 < m)
    {i j : ℕ} (hi : i < m) (hj : j < m) (hij : μ ^ i = μ ^ j) : i = j := by
  have key : ∀ a b : ℕ, a ≤ b → b < m → μ ^ a = μ ^ b → a = b := by
    intro a b hab hbm he
    by_contra hne
    have hlt : 0 < b - a := by omega
    have h2 : μ ^ a * μ ^ (b - a) = μ ^ a * 1 := by
      rw [mul_one, ← pow_add]
      have hab2 : a + (b - a) = b := by omega
      rw [hab2, he]
    have h3 : μ ^ (b - a) = 1 :=
      mul_left_cancel₀ (h.powNeZero hm a) h2
    exact h.2 (b - a) (by omega) hlt h3
  rcases le_total i j with hle | hle
  · exact key i j hle hj hij
  · exact (key j i hle hi hij.symm).symm

theorem isPrimRoot.pow_mod {μ : F} {m : ℕ} (h : isPrimRoot μ m) (k : ℕ) :
    μ ^ (k % m) = μ ^ k := by
  conv_rhs => rw [← Nat.div_add_mod k m]
  rw [pow_add, pow_mul, h.1, one_pow, one_mul]

theorem geom_sum_zero_of_pow_eq_one {ζ : F} {m : ℕ} (hζ1 : ζ ≠ 1)
    (hζm : ζ ^ m = 1) : ∑ i ∈ Finset.range m, ζ ^ i = 0 := by
  rw [geom_sum_eq hζ1, hζm, sub_self, zero_div]

theorem inv_pow_comm (μ : F) (a b : ℕ) :
    ((μ ^ a)⁻¹) ^ b = ((μ ^ b)⁻¹) ^ a := by
  rw [inv_pow, inv_pow, ← pow_mul, ← pow_mul, mul_comm]

/-- Orthogonality of the characters `i ↦ μ^(ik)` over a full period. -/
theorem isPrimRoot.orth {μ : F} {m : ℕ} (h : isPrimRoot μ m)
    (hmF : (m : F) ≠ 0) {k j : ℕ} (hk : k < m) (hj : j < m) :
    ∑ i ∈ Finset.range m, (μ ^ k * (μ ^ j)⁻¹) ^ i =
      if k = j then (m : F) else 0 := by
  have hm : 0 < m := Nat.pos_of_ne_zero (by rintro rfl; simp at hmF)
  by_cases hkj : k = j
  · subst hkj
    rw [if_pos rfl]
    rw [mul_inv_cancel₀ (h.powNeZero hm k)]
    simp
  · rw [if_neg hkj]
    have hζm : (μ ^ k * (μ ^ j)⁻¹) ^ m = 1 := by
      rw [mul_pow, inv_pow, ← pow_mul, ← pow_mul, mul_comm k m, mul_comm j m,
        pow_mul, pow_mul, h.1, one_pow, one_pow, inv_one, mul_one]
    have hζ1 : μ ^ k * (μ ^ j)⁻¹ ≠ 1 := by
      intro he
      apply hkj
      apply h.pow_inj hm hk hj
      have h2 : μ ^ k * (μ ^ j)⁻¹ * μ ^ j = 1 * μ ^ j := by rw [he]
      rwa [mul_assoc, inv_mul_cancel₀ (h.powNeZero hm j), mul_one, one_mul] at h2
    exact geom_sum_zero_of_pow_eq_one hζ1 hζm

/-- Evaluate a monomial coefficient list at a point:
`evalc [c0, …, c_(m-1)] x = Σ c_j x^j`. -/
def evalc (cs : List F) (x : F) : F :=
  ∑ j ∈ Finset.range cs.length, cs.getD j 0 * x ^ j

/-- Modelled from the spec: a forward FFT of length `m` after the substitution
`X ← κX` — it maps a coefficient list to its evaluations at the coset points
`κ·μ^0, …, κ·μ^(m-1)` (`poly.py` is not part of the source under `src/`). -/
def fftEval (m : ℕ) (μ κ : F) (cs : List F) : List F :=
  (List.range m).map fun i => evalc cs (κ * μ ^ i)

/-- Modelled from the spec: the inverse FFT of length `m` followed by the
substitution `X ← X/κ` — entry `j` is `κ^(-j) · m⁻¹ · Σ_i v_i μ^(-ij)`
(`poly.py` is not part of the source under `src/`). -/
def invFFT (m : ℕ) (μ κ : F) (v : List F) : List F :=
  (List.range m).map fun j =>
    (κ ^ j)⁻¹ * ((m : F)⁻¹ * ∑ i ∈ Finset.range m, v.getD i 0 * ((μ ^ j)⁻¹) ^ i)

theorem getD_range_map {α : Type} (f : ℕ → α) {m i : ℕ} (h : i < m) (d : α) :
    ((List.range m).map f).getD i d = f i := by
  rw [List.getD_eq_getElem?_getD]
  simp [List.getElem?_map, List.getElem?_range, h]

theorem length_fftEval (m : ℕ) (μ κ : F) (cs : List F) :
    (fftEval m μ κ cs).length = m := by simp [fftEval]

theorem length_invFFT (m : ℕ) (μ κ : F) (v : List F) :
    (invFFT m μ κ v).length = m := by simp [invFFT]

theorem getD_fftEval {m i : ℕ} (μ κ : F) (cs : List F) (h : i < m) :
    (fftEval m μ κ cs).getD i 0 = evalc cs (κ * μ ^ i) :=
  getD_range_map _ h 0

theorem getD_invFFT {m j : ℕ} (μ κ : F) (v : List F) (h : j < m) :
    (invFFT m μ κ v).getD j 0 =
      (κ ^ j)⁻¹ * ((m : F)⁻¹ *
        ∑ i ∈ Finset.range m, v.getD i 0 * ((μ ^ j)⁻¹) ^ i) :=
  getD_range_map _ h 0

/-- Fourier inversion, first direction: the inverse FFT recovers a length-`m`
coefficient list from its evaluations on the coset `κ·μ^i`. -/
theorem invFFT_fftEval {m : ℕ} {μ κ : F} (h : isPrimRoot μ m)
    (hmF : (m : F) ≠ 0) (hκ : κ ≠ 0) (cs : List F) (hc : cs.length = m) :
    invFFT m μ κ (fftEval m μ κ cs) = cs := by
  have hm : 0 < m := Nat.pos_of_ne_zero (by rintro rfl; simp at hmF)
  apply List.ext_getElem
  · simp [invFFT, hc]
  intro j hj hj'
  have hjm : j < m := by simpa [invFFT] using hj
  have hgoal : (invFFT m μ κ (fftEval m μ κ cs))[j] =
      (κ ^ j)⁻¹ * ((m : F)⁻¹ *
        ∑ i ∈ Finset.range m, (fftEval m μ κ cs).getD i 0 * ((μ ^ j)⁻¹) ^ i) := by
    simp [invFFT]
  rw [hgoal]
  have step1 : ∀ i ∈ Finset.range m,
      (fftEval m μ κ cs).getD i 0 * ((μ ^ j)⁻¹) ^ i =
      ∑ t ∈ Finset.range m, cs.getD t 0 * κ ^ t * (μ ^ t * (μ ^ j)⁻¹) ^ i := by
    intro i hi
    rw [getD_fftEval μ κ cs (mem_range.mp hi)]
    unfold evalc
    rw [hc, Finset.sum_mul]
    refine Finset.sum_congr rfl fun t ht => ?_
    rw [mul_pow, mul_pow, ← pow_mul, ← pow_mul, mul_comm i t, pow_mul]
    ring
  rw [Finset.sum_congr rfl step1, Finset.sum_comm]
  have step2 : ∀ t ∈ Finset.range m,
      (∑ i ∈ Finset.range m, cs.getD t 0 * κ ^ t * (μ ^ t * (μ ^ j)⁻¹) ^ i) =
      cs.getD t 0 * κ ^ t * (if t = j then (m : F) else 0) := by
    intro t ht
    rw [← Finset.mul_sum, h.orth hmF (mem_range.mp ht) hjm]
  rw [Finset.sum_congr rfl step2]
  have step3 : (∑ t ∈ Finset.range m,
      cs.getD t 0 * κ ^ t * (if t = j then (m : F) else 0)) =
      cs.getD j 0 * κ ^ j * (m : F) := by
    rw [Finset.sum_eq_single j]
    · rw [if_pos rfl]
    · intro t ht htj
      rw [if_neg htj, mul_zero]
    · intro hjn
      exact absurd (mem_range.mpr hjm) hjn
  rw [step3]
  rw [List.getD_eq_getElem?_getD, List.getElem?_eq_getElem hj', Option.getD_some]
  have hκj : κ ^ j ≠ 0 := pow_ne_zero j hκ
  field_simp

/-- Fourier inversion, second direction: the forward FFT recovers a length-`m`
evaluation list from its inverse FFT. -/
theorem fftEval_invFFT {m : ℕ} {μ κ : F} (h : isPrimRoot μ m)
    (hmF : (m : F) ≠ 0) (hκ : κ ≠ 0) (v : List F) (hv : v.length = m) :
    fftEval m μ κ (invFFT m μ κ v) = v := by
  have hm : 0 < m := Nat.pos_of_ne_zero (by rintro rfl; simp at hmF)
  apply List.ext_getElem
  · simp [fftEval, hv]
  intro i hi hi'
  have him : i < m := by simpa [fftEval] using hi
  have hgoal : (fftEval m μ κ (invFFT m μ κ v))[i] =
      evalc (invFFT m μ κ v) (κ * μ ^ i) := by
    simp [fftEval]
  rw [hgoal]
  unfold evalc
  rw [length_invFFT]
  have step1 : ∀ j ∈ Finset.range m,
      (invFFT m μ κ v).getD j 0 * (κ * μ ^ i) ^ j =
      ∑ t ∈ Finset.range m, (m : F)⁻¹ * (v.getD t 0 * (μ ^ i * (μ ^ t)⁻¹) ^ j) := by
    intro j hj
    rw [getD_invFFT μ κ v (mem_range.mp hj)]
    rw [Finset.mul_sum, Finset.mul_sum, Finset.sum_mul]
    refine Finset.sum_congr rfl fun t ht => ?_
    have hcan : (κ ^ j)⁻¹ * (κ * μ ^ i) ^ j = (μ ^ i) ^ j := by
      rw [mul_pow]
      rw [inv_mul_cancel_left₀ (pow_ne_zero j hκ)]
    calc (κ ^ j)⁻¹ * ((m : F)⁻¹ * (v.getD t 0 * ((μ ^ j)⁻¹) ^ t)) * (κ * μ ^ i) ^ j
        = (κ ^ j)⁻¹ * (κ * μ ^ i) ^ j *
            ((m : F)⁻¹ * (v.getD t 0 * ((μ ^ j)⁻¹) ^ t)) := by ring
      _ = (μ ^ i) ^ j * ((m : F)⁻¹ * (v.getD t 0 * ((μ ^ j)⁻¹) ^ t)) := by rw [hcan]
      _ = (m : F)⁻¹ * (v.getD t 0 * ((μ ^ i) ^ j * ((μ ^ j)⁻¹) ^ t)) := by ring
      _ = (m : F)⁻¹ * (v.getD t 0 * (μ ^ i * (μ ^ t)⁻¹) ^ j) := by
            rw [inv_pow_comm μ j t, mul_pow]
  rw [Finset.sum_congr rfl step1]
  have hswap : (∑ j ∈ Finset.range m, ∑ t ∈ Finset.range m,
      (m : F)⁻¹ * (v.getD t 0 * (μ ^ i * (μ ^ t)⁻¹) ^ j)) =
      ∑ t ∈ Finset.range m, (m : F)⁻¹ *
        (v.getD t 0 * ∑ j ∈ Finset.range m, (μ ^ i * (μ ^ t)⁻¹) ^ j) := by
    rw [Finset.sum_comm]
    refine Finset.sum_congr rfl fun t ht => ?_
    rw [Finset.mul_sum, Finset.mul_sum]
  rw [hswap]
  have step2 : ∀ t ∈ Finset.range m,
      (m : F)⁻¹ * (v.getD t 0 * ∑ j ∈ Finset.range m, (μ ^ i * (μ ^ t)⁻¹) ^ j) =
      (m : F)⁻¹ * (v.getD t 0 * (if i = t then (m : F) else 0)) := by
    intro t ht
    rw [h.orth hmF him (mem_range.mp ht)]
  rw [Finset.sum_congr rfl step2]
  have step3 : (∑ t ∈ Finset.range m,
      (m : F)⁻¹ * (v.getD t 0 * (if i = t then (m : F) else 0))) =
      (m : F)⁻¹ * (v.getD i 0 * (m : F)) := by
    rw [Finset.sum_eq_single i]
    · rw [if_pos rfl]
    · intro t ht hti
      rw [if_neg fun he => hti he.symm, mul_zero, mul_zero]
    · intro hin
      exact absurd (mem_range.mpr him) hin
  rw [step3]
  rw [List.getD_eq_getElem?_getD, List.getElem?_eq_getElem hi', Option.getD_some]
  field_simp

/-! ## Bridge between coefficient lists and formal polynomials -/

/-- The formal polynomial whose coefficient list is `cs` (proof scaffolding,
not part of the embedded program). -/
noncomputable def listToPoly (cs : List F) : Polynomial F :=
  ∑ j ∈ Finset.range cs.length, Polynomial.C (cs.getD j 0) * Polynomial.X ^ j

theorem eval_listToPoly (cs : List F) (x : F) :
    (listToPoly cs).eval x = evalc cs x := by
  unfold listToPoly evalc
  rw [Polynomial.eval_finset_sum]
  refine Finset.sum_congr rfl fun j hj => ?_
  simp

theorem coeff_listToPoly (cs : List F) (t : ℕ) :
    (listToPoly cs).coeff t = if t < cs.length then cs.getD t 0 else 0 := by
  unfold listToPoly
  rw [Polynomial.finset_sum_coeff]
  by_cases h : t < cs.length
  · rw [if_pos h]
    rw [Finset.sum_eq_single t]
    · simp
    · intro j hj hjt
      simp [Polynomial.coeff_C_mul, Polynomial.coeff_X_pow, Ne.symm hjt]
    · intro ht
      exact absurd (mem_range.mpr h) ht
  · rw [if_neg h]
    apply Finset.sum_eq_zero
    intro j hj
    have hne : t ≠ j := by
      have := mem_range.mp hj
      omega
    simp [Polynomial.coeff_C_mul, Polynomial.coeff_X_pow, hne]

theorem natDegree_listToPoly_lt (cs : List F) (m : ℕ) (hm : 0 < m)
    (hc : cs.length ≤ m) : (listToPoly cs).natDegree < m := by
  have h1 : (listToPoly cs).natDegree ≤ m - 1 := by
    apply Polynomial.natDegree_sum_le_of_forall_le
    intro j hj
    refine le_trans (Polynomial.natDegree_C_mul_X_pow_le _ _) ?_
    have := mem_range.mp hj
    omega
  omega

/-- The first `m` coefficients of a formal polynomial, as a list (proof
scaffolding, not part of the embedded program). -/
noncomputable def polyToList (p : Polynomial F) (m : ℕ) : List F :=
  (List.range m).map p.coeff

theorem length_polyToList (p : Polynomial F) (m : ℕ) :
    (polyToList p m).length = m := by
  simp [polyToList]

theorem getD_polyToList (p : Polynomial F) {m t : ℕ} (h : t < m) :
    (polyToList p m).getD t 0 = p.coeff t :=
  getD_range_map _ h 0

theorem evalc_polyToList (p : Polynomial F) {m : ℕ} (hdeg : p.natDegree < m)
    (x : F) : evalc (polyToList p m) x = p.eval x := by
  unfold evalc
  rw [length_polyToList, Polynomial.eval_eq_sum_range' hdeg x]
  refine Finset.sum_congr rfl fun j hj => ?_
  rw [getD_polyToList p (mem_range.mp hj)]

/-- On evaluation lists coming from a polynomial of degree `< m`, the inverse
FFT returns exactly the polynomial's first `m` coefficients. -/
theorem invFFT_of_poly {m : ℕ} {μ κ : F} (h : isPrimRoot μ m)
    (hmF : (m : F) ≠ 0) (hκ : κ ≠ 0) (p : Polynomial F)
    (hdeg : p.natDegree < m) (v : List F)
    (hv : v = (List.range m).map fun i => p.eval (κ * μ ^ i)) :
    invFFT m μ κ v = polyToList p m := by
  subst hv
  have hfe : ((List.range m).map fun i => p.eval (κ * μ ^ i)) =
      fftEval m μ κ (polyToList p m) := by
    unfold fftEval
    refine List.map_congr_left fun i hi => ?_
    rw [evalc_polyToList p hdeg]
  rw [hfe, invFFT_fftEval h hmF hκ _ (length_polyToList p m)]

/-- A polynomial of degree `< n` vanishing at the `n` distinct points
`ω^0, …, ω^(n-1)` is the zero polynomial. -/
theorem eq_zero_of_vanishing (n : ℕ) (hn : 0 < n) {ω : F} (hω : isPrimRoot ω n)
    (p : Polynomial F) (hdeg : p.natDegree < n)
    (hvan : ∀ l, l < n → p.eval (ω ^ l) = 0) : p = 0 := by
  set s : Finset F := (Finset.range n).image (fun l => ω ^ l) with hs
  have hcard : s.card = n := by
    rw [hs, Finset.card_image_of_injOn, Finset.card_range]
    intro a ha b hb hab
    exact hω.pow_inj hn (mem_range.mp ha) (mem_range.mp hb) hab
  apply Polynomial.eq_zero_of_natDegree_lt_card_of_eval_eq_zero' p s
  · intro x hx
    rw [hs] at hx
    obtain ⟨l, hl, rfl⟩ := Finset.mem_image.mp hx
    exact hvan l (mem_range.mp hl)
  · rw [hcard]
    exact hdeg

/-- Divide out the vanishing polynomial: a polynomial of degree `< n + d`
that vanishes on all of `H` factors as `(X^n - 1) * T` with `deg T < d`. -/
theorem exists_quotient_by_vanishing (n d : ℕ) (hn : 0 < n) (hd : 0 < d)
    {ω : F} (hω : isPrimRoot ω n) (N : Polynomial F)
    (hdeg : N.natDegree < n + d)
    (hvan : ∀ l, l < n → N.eval (ω ^ l) = 0) :
    ∃ T : Polynomial F, N = (Polynomial.X ^ n - 1) * T ∧ T.natDegree < d := by
  have hmonic : (Polynomial.X ^ n - 1 : Polynomial F).Monic := by
    have hx := Polynomial.monic_X_pow_sub_C (1 : F) hn.ne'
    rwa [Polynomial.C_1] at hx
  have hzh_deg : (Polynomial.X ^ n - 1 : Polynomial F).natDegree = n := by
    have hx := Polynomial.natDegree_X_pow_sub_C (n := n) (r := (1 : F))
    rwa [Polynomial.C_1] at hx
  have hzh_eval : ∀ l : ℕ, (Polynomial.X ^ n - 1 : Polynomial F).eval (ω ^ l) = 0 := by
    intro l
    rw [Polynomial.eval_sub, Polynomial.eval_pow, Polynomial.eval_X,
      Polynomial.eval_one, ← pow_mul, mul_comm l n, pow_mul, hω.1, one_pow,
      sub_self]
  set Rr := N %ₘ (Polynomial.X ^ n - 1) with hRr
  have hRr_deg : Rr.natDegree < n := by
    by_cases h0 : Rr = 0
    · rw [h0]
      simpa using hn
    · have hdlt : Rr.degree < (Polynomial.X ^ n - 1 : Polynomial F).degree :=
        Polynomial.degree_modByMonic_lt N hmonic
      rw [Polynomial.degree_eq_natDegree hmonic.ne_zero, hzh_deg] at hdlt
      exact (Polynomial.natDegree_lt_iff_degree_lt h0).mpr hdlt
  have hRr_eval : ∀ l, l < n → Rr.eval (ω ^ l) = 0 := by
    intro l hl
    have hsplit := Polynomial.modByMonic_add_div N hmonic
    have hev := congrArg (Polynomial.eval (ω ^ l)) hsplit
    rw [Polynomial.eval_add, Polynomial.eval_mul, hzh_eval l, zero_mul,
      add_zero] at hev
    rw [← hRr] at hev
    rw [hev]
    exact hvan l hl
  have hRr0 : Rr = 0 := eq_zero_of_vanishing n hn hω Rr hRr_deg hRr_eval
  have hfact : N = (Polynomial.X ^ n - 1) * (N /ₘ (Polynomial.X ^ n - 1)) := by
    conv_lhs => rw [← Polynomial.modByMonic_add_div N hmonic]
    rw [← hRr, hRr0, zero_add]
  refine ⟨N /ₘ (Polynomial.X ^ n - 1), hfact, ?_⟩
  by_cases hT0 : N /ₘ (Polynomial.X ^ n - 1) = 0
  · rw [hT0]
    simpa using hd
  · have hmul := Polynomial.natDegree_mul hmonic.ne_zero hT0
    have hNdeg : N.natDegree = n + (N /ₘ (Polynomial.X ^ n - 1)).natDegree := by
      conv_lhs => rw [hfact]
      rw [hmul, hzh_deg]
    omega

/-- Divide out a linear factor: a polynomial of degree `< d + 1` with root `a`
factors as `(X - a) * Q` with `deg Q < d`. -/
theorem exists_quotient_by_linear (p : Polynomial F) (a : F)
    (hroot : p.eval a = 0) (d : ℕ) (hd : 0 < d) (hdeg : p.natDegree < d + 1) :
    ∃ Q : Polynomial F, p = (Polynomial.X - Polynomial.C a) * Q ∧
      Q.natDegree < d := by
  obtain ⟨Q, hQ⟩ := Polynomial.dvd_iff_isRoot.mpr hroot
  refine ⟨Q, hQ, ?_⟩
  by_cases hQ0 : Q = 0
  · rw [hQ0]
    simpa using hd
  · have hX0 : (Polynomial.X - Polynomial.C a : Polynomial F) ≠ 0 :=
      Polynomial.X_sub_C_ne_zero a
    have hmul := Polynomial.natDegree_mul hX0 hQ0
    rw [Polynomial.natDegree_X_sub_C] at hmul
    have hpd : p.natDegree = 1 + Q.natDegree := by
      rw [hQ, hmul]
    omega

/-! ## Embedding of `prover.py` -/

/-- Basis tag carried by a polynomial value (`poly.py` `Basis`; the source
tags both length-`n` evaluation vectors and length-`4n` coset evaluation
vectors with `LAGRANGE`). -/
inductive Basis where
  | monomial
  | lagrange
deriving DecidableEq

/-- A polynomial value as the source represents it: an ordered list of field
elements plus a basis tag. -/
structure Poly (F : Type) where
  values : List F
  basis : Basis
deriving DecidableEq

/-- `transcript.Message1`. -/
structure Message1 (G : Type) where
  a_1 : G
  b_1 : G
  c_1 : G
deriving DecidableEq

/-- `transcript.Message2`. -/
structure Message2 (G : Type) where
  z_1 : G
deriving DecidableEq

/-- `transcript.Message3`. -/
structure Message3 (G : Type) where
  t_lo_1 : G
  t_mid_1 : G
  t_hi_1 : G
deriving DecidableEq

/-- `transcript.Message4`. -/
structure Message4 (F : Type) where
  a_eval : F
  b_eval : F
  c_eval : F
  s1_eval : F
  s2_eval : F
  z_shifted_eval : F
deriving DecidableEq

/-- `transcript.Message5`. -/
structure Message5 (G : Type) where
  W_z_1 : G
  W_zw_1 : G
deriving DecidableEq

/-- `prover.Proof` (lines 10-16). -/
structure Proof (F G : Type) where
  msg_1 : Message1 G
  msg_2 : Message2 G
  msg_3 : Message3 G
  msg_4 : Message4 F
  msg_5 : Message5 G
deriving DecidableEq

/-- A value of the flattened proof dict: a group element or a scalar. -/
inductive ProofItem (F G : Type) where
  | g : G → ProofItem F G
  | s : F → ProofItem F G
deriving DecidableEq

/-- `Proof.flatten` (`prover.py` lines 18-35): the proof dict in insertion
order, modelling the Python dict as an ordered association list. -/
def Proof.flatten {G : Type} (p : Proof F G) : List (String × ProofItem F G) :=
  [("a_1", ProofItem.g p.msg_1.a_1),
   ("b_1", ProofItem.g p.msg_1.b_1),
   ("c_1", ProofItem.g p.msg_1.c_1),
   ("z_1", ProofItem.g p.msg_2.z_1),
   ("t_lo_1", ProofItem.g p.msg_3.t_lo_1),
   ("t_mid_1", ProofItem.g p.msg_3.t_mid_1),
   ("t_hi_1", ProofItem.g p.msg_3.t_hi_1),
   ("a_eval", ProofItem.s p.msg_4.a_eval),
   ("b_eval", ProofItem.s p.msg_4.b_eval),
   ("c_eval", ProofItem.s p.msg_4.c_eval),
   ("s1_eval", ProofItem.s p.msg_4.s1_eval),
   ("s2_eval", ProofItem.s p.msg_4.s2_eval),
   ("z_shifted_eval", ProofItem.s p.msg_4.z_shifted_eval),
   ("W_z_1", ProofItem.g p.msg_5.W_z_1),
   ("W_zw_1", ProofItem.g p.msg_5.W_zw_1)]

/-- A gate wiring triple (`program.wires()` entries): left, right and output
variable names, `none` being the empty wire. -/
structure GateWires (V : Type) where
  L : Option V
  R : Option V
  O : Option V
deriving DecidableEq

/-- The Python witness dict, modelled as an ordered association list with
unique keys (Python dicts preserve insertion order). -/
abbrev Witness (V F : Type) := List (Option V × F)

/-- Dict lookup. -/
def wlookup {V : Type} [DecidableEq V] (w : Witness V F) (k : Option V) :
    Option F :=
  (w.find? fun q => decide (q.1 = k)).map Prod.snd

/-- `witness[None] = 0` insertion (`prover.py` lines 94-95); a new Python
dict key is appended at the end of the iteration order. -/
def insertNoneZero {V : Type} [DecidableEq V] (witness : Witness V F) :
    Witness V F :=
  if (wlookup witness none).isSome then witness else witness ++ [(none, 0)]

/-- Total wire-value lookup.  The theorems assume every wire name is a key of
the witness; a missing key is a Python `KeyError`, outside the claims. -/
def wireVal {V : Type} [DecidableEq V] (witness : Witness V F)
    (k : Option V) : F :=
  (wlookup witness k).getD 0

/-- `A_values` (`prover.py` lines 101-107): `n` zeros overwritten with
`witness[wires[i].L]` for each gate `i`. -/
def A_values {V : Type} [DecidableEq V] (n : ℕ) (wires : List (GateWires V))
    (witness : Witness V F) : List F :=
  (List.range n).map fun i =>
    match wires[i]? with
    | some wire => wireVal witness wire.L
    | none => 0

/-- `B_values` (`prover.py` lines 101-107). -/
def B_values {V : Type} [DecidableEq V] (n : ℕ) (wires : List (GateWires V))
    (witness : Witness V F) : List F :=
  (List.range n).map fun i =>
    match wires[i]? with
    | some wire => wireVal witness wire.R
    | none => 0

/-- `C_values` (`prover.py` lines 101-107). -/
def C_values {V : Type} [DecidableEq V] (n : ℕ) (wires : List (GateWires V))
    (witness : Witness V F) : List F :=
  (List.range n).map fun i =>
    match wires[i]? with
    | some wire => wireVal witness wire.O
    | none => 0

/-- Common preprocessed input: selector and permutation polynomials in
`LAGRANGE` evaluation form (length `n` each). -/
structure CommonPreprocessedInput (F : Type) where
  QL : List F
  QR : List F
  QM : List F
  QO : List F
  QC : List F
  S1 : List F
  S2 : List F
  S3 : List F
deriving DecidableEq

/-- Modelled from the spec: pointwise addition of equal-basis equal-length
`LAGRANGE` vectors (`poly.py` `__add__`). -/
def polyAdd (a b : List F) : List F := List.zipWith (· + ·) a b

/-- Modelled from the spec: pointwise multiplication of equal-basis
equal-length `LAGRANGE` vectors (`poly.py` `__mul__`). -/
def polyMul (a b : List F) : List F := List.zipWith (· * ·) a b

/-- The round-1 gate-constraint vector (`prover.py` lines 130-138):
`A*QL + B*QR + A*B*QM + C*QO + PI + QC` in `LAGRANGE` form, with the
left-associated operator order of the source. -/
def gateVector (A B C PI : List F) (pk : CommonPreprocessedInput F) :
    List F :=
  polyAdd (polyAdd (polyAdd (polyAdd (polyAdd
    (polyMul A pk.QL) (polyMul B pk.QR)) (polyMul (polyMul A B) pk.QM))
    (polyMul C pk.QO)) PI) pk.QC

/-- `Prover.round_1` (`prover.py` lines 86-141).  Returns the (possibly
mutated) witness dict, together with `some (Message1 a_1 b_1 c_1)` on
success or `none` when the gate-constraint `assert` raises (which happens
after the commitments are computed but before `Message1` is returned). -/
def round_1 {V G : Type} [DecidableEq V] (n : ℕ) (wires : List (GateWires V))
    (pk : CommonPreprocessedInput F) (PI : List F) (commit : List F → G)
    (witness : Witness V F) : Witness V F × Option (Message1 G) :=
  let witness1 := insertNoneZero witness
  let A := A_values n wires witness1
  let B := B_values n wires witness1
  let C := C_values n wires witness1
  let a_1 := commit A
  let b_1 := commit B
  let c_1 := commit C
  (witness1,
    if gateVector A B C PI pk = List.replicate n 0 then
      some ⟨a_1, b_1, c_1⟩
    else none)

/-- `Prover.rlc` (`prover.py` lines 490-491):
`term_1 + term_2 * beta + gamma`. -/
def rlc (β γ term_1 term_2 : F) : F := term_1 + term_2 * β + γ

/-- The round-2 accumulator recurrence (`prover.py` lines 153-163):
`Z_0 = 1`, and each next value multiplies by the three numerator `rlc`s and
divides sequentially by the three denominator `rlc`s.  `ω^i` models
`Scalar.roots_of_unity(group_order)[i]`. -/
def accZ (β γ ω : F) (A B C : List F) (pk : CommonPreprocessedInput F) :
    ℕ → F
  | 0 => 1
  | i + 1 =>
      accZ β γ ω A B C pk i *
        rlc β γ (A.getD i 0) (ω ^ i) *
        rlc β γ (B.getD i 0) (2 * ω ^ i) *
        rlc β γ (C.getD i 0) (3 * ω ^ i) /
        rlc β γ (A.getD i 0) (pk.S1.getD i 0) /
        rlc β γ (B.getD i 0) (pk.S2.getD i 0) /
        rlc β γ (C.getD i 0) (pk.S3.getD i 0)

/-- The round-2 step-by-step wrap-around check (`prover.py` lines 169-180),
performed on the trimmed accumulator list `Z` of length `n`. -/
def round2LocalCheck (n : ℕ) (β γ ω : F) (A B C : List F)
    (pk : CommonPreprocessedInput F) (Z : List F) : Prop :=
  ∀ i, i < n →
    rlc β γ (A.getD i 0) (ω ^ i) *
    rlc β γ (B.getD i 0) (2 * ω ^ i) *
    rlc β γ (C.getD i 0) (3 * ω ^ i) * Z.getD i 0 -
    rlc β γ (A.getD i 0) (pk.S1.getD i 0) *
    rlc β γ (B.getD i 0) (pk.S2.getD i 0) *
    rlc β γ (C.getD i 0) (pk.S3.getD i 0) * Z.getD ((i + 1) % n) 0 = 0

instance (n : ℕ) (β γ ω : F) (A B C : List F)
    (pk : CommonPreprocessedInput F) (Z : List F) :
    Decidable (round2LocalCheck n β γ ω A B C pk Z) := by
  unfold round2LocalCheck; infer_instance

/-- `Prover.round_2` (`prover.py` lines 143-189).  Returns the committed
message and the kept accumulator vector on success; `none` when the
`Z_n = 1` assertion or the step-by-step check raises. -/
def round_2 {G : Type} (n : ℕ) (β γ ω : F) (A B C : List F)
    (pk : CommonPreprocessedInput F) (commit : List F → G) :
    Option (Message2 G × List F) :=
  let Z_values := (List.range (n + 1)).map (accZ β γ ω A B C pk)
  if Z_values.getD n 0 = 1 then
    let Z := Z_values.take n
    if round2LocalCheck n β γ ω A B C pk Z then
      some (⟨commit Z⟩, Z)
    else none
  else none

/-- `Polynomial.to_coset_extended_lagrange` (`poly.py`, modelled from the
spec): convert a `LAGRANGE` length-`n` vector to monomial coefficients by an
inverse FFT over `H` and evaluate the result on the `4n`-point coset
`κ·μ^i`. -/
def to_coset_extended_lagrange (n : ℕ) (ω μ κ : F) (v : List F) : List F :=
  fftEval (4 * n) μ κ (invFFT n ω 1 v)

/-- `Polynomial.barycentric_eval` (`poly.py`, modelled from the spec):
evaluate the degree-`< n` interpolant of a `LAGRANGE` vector at an
arbitrary point. -/
def barycentric_eval (n : ℕ) (ω : F) (v : List F) (x : F) : F :=
  evalc (invFFT n ω 1 v) x

/-- `Polynomial.shift 4` (`poly.py`, modelled from the spec): rotate a
length-`m` coset evaluation vector left by `4`. -/
def shift4 (m : ℕ) (v : List F) : List F :=
  (List.range m).map fun i => v.getD ((i + 4) % m) 0

/-- The prover state feeding rounds 3-5: the domain size, the generators of
the two root-of-unity tables, the transcript challenges and the stored
`LAGRANGE` polynomials from rounds 1-2. -/
structure ProverRun (F : Type) where
  n : ℕ
  omega : F
  mu : F
  beta : F
  gamma : F
  alpha : F
  fft_cofactor : F
  zeta : F
  v : F
  A : List F
  B : List F
  C : List F
  PI : List F
  Z : List F
  pk : CommonPreprocessedInput F

namespace ProverRun

variable (r : ProverRun F)

/-- `A_big = self.fft_expand(self.A)` (`prover.py` line 206). -/
def A_big : List F :=
  to_coset_extended_lagrange r.n r.omega r.mu r.fft_cofactor r.A

/-- `B_big` (`prover.py` line 207). -/
def B_big : List F :=
  to_coset_extended_lagrange r.n r.omega r.mu r.fft_cofactor r.B

/-- `C_big` (`prover.py` line 208). -/
def C_big : List F :=
  to_coset_extended_lagrange r.n r.omega r.mu r.fft_cofactor r.C

/-- `PI_big` (`prover.py` line 214). -/
def PI_big : List F :=
  to_coset_extended_lagrange r.n r.omega r.mu r.fft_cofactor r.PI

/-- `QL_big` (`prover.py` lines 218-219). -/
def QL_big : List F :=
  to_coset_extended_lagrange r.n r.omega r.mu r.fft_cofactor r.pk.QL

/-- `QR_big` (`prover.py` lines 218-219). -/
def QR_big : List F :=
  to_coset_extended_lagrange r.n r.omega r.mu r.fft_cofactor r.pk.QR

/-- `QM_big` (`prover.py` lines 218-219). -/
def QM_big : List F :=
  to_coset_extended_lagrange r.n r.omega r.mu r.fft_cofactor r.pk.QM

/-- `QO_big` (`prover.py` lines 218-219). -/
def QO_big : List F :=
  to_coset_extended_lagrange r.n r.omega r.mu r.fft_cofactor r.pk.QO

/-- `QC_big` (`prover.py` lines 218-219). -/
def QC_big : List F :=
  to_coset_extended_lagrange r.n r.omega r.mu r.fft_cofactor r.pk.QC

/-- `Z_big` (`prover.py` line 223). -/
def Z_big : List F :=
  to_coset_extended_lagrange r.n r.omega r.mu r.fft_cofactor r.Z

/-- `Z_shifted_big = Z_big.shift(4)` (`prover.py` line 226). -/
def Z_shifted_big : List F := shift4 (4 * r.n) r.Z_big

/-- `S1_big` (`prover.py` line 230). -/
def S1_big : List F :=
  to_coset_extended_lagrange r.n r.omega r.mu r.fft_cofactor r.pk.S1

/-- `S2_big` (`prover.py` line 231). -/
def S2_big : List F :=
  to_coset_extended_lagrange r.n r.omega r.mu r.fft_cofactor r.pk.S2

/-- `S3_big` (`prover.py` line 232). -/
def S3_big : List F :=
  to_coset_extended_lagrange r.n r.omega r.mu r.fft_cofactor r.pk.S3

/-- `ZH_big` (`prover.py` lines 238-242): `(μ^i · κ)^n - 1` pointwise. -/
def ZH_big : List F :=
  (List.range (4 * r.n)).map fun i => (r.mu ^ i * r.fft_cofactor) ^ r.n - 1

/-- `L0_big` (`prover.py` lines 248-250): the coset extension of the
`LAGRANGE` vector `[1, 0, …, 0]`. -/
def L0_big : List F :=
  to_coset_extended_lagrange r.n r.omega r.mu r.fft_cofactor
    (1 :: List.replicate (r.n - 1) 0)

/-- `QUOT_values` (`prover.py` lines 267-286): the quotient evaluated
pointwise on the coset, with the term and operator order of the source. -/
def QUOT_values : List F :=
  (List.range (4 * r.n)).map fun i =>
    ((r.A_big.getD i 0 * r.QL_big.getD i 0 +
      r.B_big.getD i 0 * r.QR_big.getD i 0 +
      r.A_big.getD i 0 * r.B_big.getD i 0 * r.QM_big.getD i 0 +
      r.C_big.getD i 0 * r.QO_big.getD i 0 +
      r.PI_big.getD i 0 +
      r.QC_big.getD i 0) +
     rlc r.beta r.gamma (r.A_big.getD i 0) (r.fft_cofactor * r.mu ^ i) *
       rlc r.beta r.gamma (r.B_big.getD i 0) (2 * r.fft_cofactor * r.mu ^ i) *
       rlc r.beta r.gamma (r.C_big.getD i 0) (3 * r.fft_cofactor * r.mu ^ i) *
       r.alpha * r.Z_big.getD i 0 -
     rlc r.beta r.gamma (r.A_big.getD i 0) (r.S1_big.getD i 0) *
       rlc r.beta r.gamma (r.B_big.getD i 0) (r.S2_big.getD i 0) *
       rlc r.beta r.gamma (r.C_big.getD i 0) (r.S3_big.getD i 0) *
       r.alpha * r.Z_shifted_big.getD i 0 +
     (r.Z_big.getD i 0 - 1) * r.L0_big.getD i 0 * r.alpha ^ 2) /
    r.ZH_big.getD i 0

/-- `QUOT_coeffs` (`prover.py` line 298): monomial coefficients of the
quotient, recovered from the coset evaluations. -/
def QUOT_coeffs : List F := invFFT (4 * r.n) r.mu r.fft_cofactor r.QUOT_values

/-- The round-3 degree assertion (`prover.py` lines 289-293): the top `n`
monomial coefficients of the quotient are all zero. -/
def round3DegreeCheck : Prop :=
  r.QUOT_coeffs.drop (3 * r.n) = List.replicate r.n 0

/-- `T1` coefficient chunk `QUOT_coeffs[:n]` (`prover.py` line 299). -/
def T1_chunk : List F := r.QUOT_coeffs.take r.n

/-- `T2` coefficient chunk `QUOT_coeffs[n:2n]` (`prover.py` line 300). -/
def T2_chunk : List F := (r.QUOT_coeffs.drop r.n).take r.n

/-- `T3` coefficient chunk `QUOT_coeffs[2n:3n]` (`prover.py` line 301). -/
def T3_chunk : List F := (r.QUOT_coeffs.drop (2 * r.n)).take r.n

/-- `T1 = Polynomial(chunk, MONOMIAL).fft()` (`prover.py` line 299): the
chunk re-interpolated as a `LAGRANGE` vector over `H`. -/
def T1 : List F := fftEval r.n r.omega 1 r.T1_chunk

/-- `T2` (`prover.py` line 300). -/
def T2 : List F := fftEval r.n r.omega 1 r.T2_chunk

/-- `T3` (`prover.py` line 301). -/
def T3 : List F := fftEval r.n r.omega 1 r.T3_chunk

/-- The round-3 cross-check assertion (`prover.py` lines 307-311):
`T1(κ) + T2(κ)·κ^n + T3(κ)·κ^(2n) = QUOT_big.values[0]`. -/
def round3CrossCheck : Prop :=
  barycentric_eval r.n r.omega r.T1 r.fft_cofactor +
    barycentric_eval r.n r.omega r.T2 r.fft_cofactor * r.fft_cofactor ^ r.n +
    barycentric_eval r.n r.omega r.T3 r.fft_cofactor *
      r.fft_cofactor ^ (r.n * 2) =
  r.QUOT_values.getD 0 0

/-- `a_eval = A.barycentric_eval(zeta)` (`prover.py` line 329). -/
def a_eval : F := barycentric_eval r.n r.omega r.A r.zeta

/-- `b_eval` (`prover.py` line 331). -/
def b_eval : F := barycentric_eval r.n r.omega r.B r.zeta

/-- `c_eval` (`prover.py` line 333). -/
def c_eval : F := barycentric_eval r.n r.omega r.C r.zeta

/-- `s1_eval` (`prover.py` line 335). -/
def s1_eval : F := barycentric_eval r.n r.omega r.pk.S1 r.zeta

/-- `s2_eval` (`prover.py` line 337). -/
def s2_eval : F := barycentric_eval r.n r.omega r.pk.S2 r.zeta

/-- `z_shifted_eval = Z.barycentric_eval(zeta * ω)` (`prover.py` line 339). -/
def z_shifted_eval : F := barycentric_eval r.n r.omega r.Z (r.zeta * r.omega)

/-- `pi_eval` (`prover.py` line 357). -/
def pi_eval : F := barycentric_eval r.n r.omega r.PI r.zeta

/-- `l0_eval` (`prover.py` line 359). -/
def l0_eval : F :=
  barycentric_eval r.n r.omega (1 :: List.replicate (r.n - 1) 0) r.zeta

/-- `zh_eval = zeta ** group_order - 1` (`prover.py` line 362). -/
def zh_eval : F := r.zeta ^ r.n - 1

/-- `T1_big` (`prover.py` line 368): the stored `LAGRANGE` chunk `T1` moved
to the coset. -/
def T1_big : List F :=
  to_coset_extended_lagrange r.n r.omega r.mu r.fft_cofactor r.T1

/-- `T2_big` (`prover.py` line 369). -/
def T2_big : List F :=
  to_coset_extended_lagrange r.n r.omega r.mu r.fft_cofactor r.T2

/-- `T3_big` (`prover.py` line 370). -/
def T3_big : List F :=
  to_coset_extended_lagrange r.n r.omega r.mu r.fft_cofactor r.T3

/-- `R_values` (`prover.py` lines 392-406): the linearization polynomial
evaluated pointwise on the coset. -/
def R_values : List F :=
  (List.range (4 * r.n)).map fun i =>
    (r.a_eval * r.QL_big.getD i 0 + r.b_eval * r.QR_big.getD i 0 +
      r.a_eval * r.b_eval * r.QM_big.getD i 0 +
      r.c_eval * r.QO_big.getD i 0 + r.pi_eval + r.QC_big.getD i 0) +
    (r.a_eval + r.beta * r.zeta + r.gamma) *
      (r.b_eval + r.beta * 2 * r.zeta + r.gamma) *
      (r.c_eval + r.beta * 3 * r.zeta + r.gamma) *
      r.alpha * r.Z_big.getD i 0 -
    (r.a_eval + r.beta * r.s1_eval + r.gamma) *
      (r.b_eval + r.beta * r.s2_eval + r.gamma) *
      (r.c_eval + r.beta * r.S3_big.getD i 0 + r.gamma) *
      r.alpha * r.z_shifted_eval +
    (r.Z_big.getD i 0 - 1) * r.l0_eval * r.alpha ^ 2 -
    (r.T1_big.getD i 0 + r.zeta ^ r.n * r.T2_big.getD i 0 +
      r.zeta ^ (r.n * 2) * r.T3_big.getD i 0) * r.zh_eval

/-- `R_coeffs` (`prover.py` line 408). -/
def R_coeffs : List F := invFFT (4 * r.n) r.mu r.fft_cofactor r.R_values

/-- `R = Polynomial(R_coeffs.values[:n], MONOMIAL).fft()`
(`prover.py` line 409). -/
def R_lag : List F := fftEval r.n r.omega 1 (r.R_coeffs.take r.n)

/-- The round-5 linearization sanity assertion (`prover.py` line 414):
`R.barycentric_eval(zeta) == 0`. -/
def round5RCheck : Prop :=
  barycentric_eval r.n r.omega r.R_lag r.zeta = 0

/-- `W_z_values` (`prover.py` lines 439-448). -/
def W_z_values : List F :=
  (List.range (4 * r.n)).map fun i =>
    (r.R_values.getD i 0 +
      r.v * (r.A_big.getD i 0 - r.a_eval) +
      r.v ^ 2 * (r.B_big.getD i 0 - r.b_eval) +
      r.v ^ 3 * (r.C_big.getD i 0 - r.c_eval) +
      r.v ^ 4 * (r.S1_big.getD i 0 - r.s1_eval) +
      r.v ^ 5 * (r.S2_big.getD i 0 - r.s2_eval)) /
    (r.fft_cofactor * r.mu ^ i - r.zeta)

/-- `W_z_coeffs` (`prover.py` line 450). -/
def W_z_coeffs : List F := invFFT (4 * r.n) r.mu r.fft_cofactor r.W_z_values

/-- The round-5 `W_z` degree assertion (`prover.py` line 453): coefficients
from index `n` on are all zero. -/
def round5WzCheck : Prop :=
  r.W_z_coeffs.drop r.n = List.replicate (3 * r.n) 0

/-- `W_z` (`prover.py` line 456): the committed `LAGRANGE` vector. -/
def W_z : List F := fftEval r.n r.omega 1 (r.W_z_coeffs.take r.n)

/-- `W_zw_values` (`prover.py` lines 464-468). -/
def W_zw_values : List F :=
  (List.range (4 * r.n)).map fun i =>
    (r.Z_big.getD i 0 - r.z_shifted_eval) /
    (r.fft_cofactor * r.mu ^ i - r.zeta * r.omega)

/-- `W_zw_coeffs` (`prover.py` line 470). -/
def W_zw_coeffs : List F := invFFT (4 * r.n) r.mu r.fft_cofactor r.W_zw_values

/-- The round-5 `W_zw` degree assertion (`prover.py` line 473). -/
def round5WzwCheck : Prop :=
  r.W_zw_coeffs.drop r.n = List.replicate (3 * r.n) 0

/-- `W_zw` (`prover.py` line 476). -/
def W_zw : List F := fftEval r.n r.omega 1 (r.W_zw_coeffs.take r.n)

/-- The round-1 gate identity, stated at the `LAGRANGE` sample points: for
every row `l < n` the combination `A·QL + B·QR + A·B·QM + C·QO + PI + QC`
vanishes. -/
def gateHolds : Prop :=
  ∀ l, l < r.n →
    r.A.getD l 0 * r.pk.QL.getD l 0 + r.B.getD l 0 * r.pk.QR.getD l 0 +
    r.A.getD l 0 * r.B.getD l 0 * r.pk.QM.getD l 0 +
    r.C.getD l 0 * r.pk.QO.getD l 0 + r.PI.getD l 0 + r.pk.QC.getD l 0 = 0

instance : Decidable r.gateHolds := by
  unfold gateHolds; infer_instance

/-- The round-2 accumulator relations on the stored `Z`: `Z_0 = 1` and the
wrap-around product identity at every row. -/
def accHolds : Prop :=
  r.Z.getD 0 0 = 1 ∧
  ∀ l, l < r.n →
    rlc r.beta r.gamma (r.A.getD l 0) (r.omega ^ l) *
      rlc r.beta r.gamma (r.B.getD l 0) (2 * r.omega ^ l) *
      rlc r.beta r.gamma (r.C.getD l 0) (3 * r.omega ^ l) *
      r.Z.getD l 0 =
    rlc r.beta r.gamma (r.A.getD l 0) (r.pk.S1.getD l 0) *
      rlc r.beta r.gamma (r.B.getD l 0) (r.pk.S2.getD l 0) *
      rlc r.beta r.gamma (r.C.getD l 0) (r.pk.S3.getD l 0) *
      r.Z.getD ((l + 1) % r.n) 0

instance : Decidable r.accHolds := by
  unfold accHolds; infer_instance

/-- Structural well-formedness of a prover run: the domain size, the two
root-of-unity tables, non-degeneracy of the coset shift, and the lengths of
all stored `LAGRANGE` vectors. -/
structure Good (r : ProverRun F) : Prop where
  hn : 2 ≤ r.n
  hmu : isPrimRoot r.mu (4 * r.n)
  homega : r.omega = r.mu ^ 4
  hchar : ((4 * r.n : ℕ) : F) ≠ 0
  hk0 : r.fft_cofactor ≠ 0
  hk1 : r.fft_cofactor ^ (4 * r.n) ≠ 1
  hA : r.A.length = r.n
  hB : r.B.length = r.n
  hC : r.C.length = r.n
  hPI : r.PI.length = r.n
  hZ : r.Z.length = r.n
  hQL : r.pk.QL.length = r.n
  hQR : r.pk.QR.length = r.n
  hQM : r.pk.QM.length = r.n
  hQO : r.pk.QO.length = r.n
  hQC : r.pk.QC.length = r.n
  hS1 : r.pk.S1.length = r.n
  hS2 : r.pk.S2.length = r.n
  hS3 : r.pk.S3.length = r.n

end ProverRun

/-! ## Interpolants and helper lemmas -/

theorem list_eq_of_getD {α : Type} (l₁ l₂ : List α) (d : α)
    (h : l₁.length = l₂.length)
    (he : ∀ i, i < l₁.length → l₁.getD i d = l₂.getD i d) : l₁ = l₂ := by
  apply List.ext_getElem h
  intro i h1 h2
  have hi := he i h1
  rwa [List.getD_eq_getElem?_getD, List.getElem?_eq_getElem h1, Option.getD_some,
    List.getD_eq_getElem?_getD, List.getElem?_eq_getElem h2, Option.getD_some] at hi

theorem getD_replicate_zero {k i : ℕ} : (List.replicate k (0 : F)).getD i 0 = 0 := by
  rw [List.getD_eq_getElem?_getD]
  by_cases h : i < k
  · rw [List.getElem?_eq_getElem (by simpa using h)]
    simp
  · rw [List.getElem?_eq_none (by simpa using h)]
    rfl

/-- The degree-`< n` interpolant of a `LAGRANGE` vector, as a formal
polynomial (proof scaffolding). -/
noncomputable def interpPoly (n : ℕ) (ω : F) (v : List F) : Polynomial F :=
  listToPoly (invFFT n ω 1 v)

theorem interpPoly_natDegree_lt (n : ℕ) (hn : 0 < n) (ω : F) (v : List F) :
    (interpPoly n ω v).natDegree < n := by
  unfold interpPoly
  exact natDegree_listToPoly_lt _ n hn (by rw [length_invFFT])

theorem interpPoly_eval_root {n : ℕ} {ω : F} (hω : isPrimRoot ω n)
    (hnF : (n : F) ≠ 0) (v : List F) (hv : v.length = n) {l : ℕ}
    (hl : l < n) : (interpPoly n ω v).eval (ω ^ l) = v.getD l 0 := by
  unfold interpPoly
  rw [eval_listToPoly]
  have h1 : (ω ^ l) = 1 * ω ^ l := (one_mul _).symm
  rw [h1, ← getD_fftEval (m := n) ω 1 _ hl,
    fftEval_invFFT hω hnF one_ne_zero v hv]

theorem barycentric_eval_eq (n : ℕ) (ω : F) (v : List F) (x : F) :
    barycentric_eval n ω v x = (interpPoly n ω v).eval x := by
  unfold barycentric_eval interpPoly
  rw [eval_listToPoly]

theorem interpPoly_fftEval {n : ℕ} {ω : F} (hω : isPrimRoot ω n)
    (hnF : (n : F) ≠ 0) (cs : List F) (hc : cs.length = n) :
    interpPoly n ω (fftEval n ω 1 cs) = listToPoly cs := by
  unfold interpPoly
  rw [invFFT_fftEval hω hnF one_ne_zero cs hc]

theorem getD_to_coset_ext {n : ℕ} (ω μ κ : F) (v : List F) {i : ℕ}
    (hi : i < 4 * n) :
    (to_coset_extended_lagrange n ω μ κ v).getD i 0 =
      (interpPoly n ω v).eval (κ * μ ^ i) := by
  unfold to_coset_extended_lagrange interpPoly
  rw [getD_fftEval μ κ _ hi, ← eval_listToPoly]

theorem isPrimRoot.pow_four {μ : F} {n : ℕ} (h : isPrimRoot μ (4 * n)) :
    isPrimRoot (μ ^ 4) n := by
  constructor
  · rw [← pow_mul]
    exact h.1
  · intro k hk hk0 hke
    rw [← pow_mul] at hke
    exact h.2 (4 * k) (by omega) (by omega) hke

namespace ProverRun

variable (r : ProverRun F)

instance : Decidable r.round3DegreeCheck := by
  unfold round3DegreeCheck; infer_instance

instance : Decidable r.round3CrossCheck := by
  unfold round3CrossCheck; infer_instance

instance : Decidable r.round5RCheck := by
  unfold round5RCheck; infer_instance

instance : Decidable r.round5WzCheck := by
  unfold round5WzCheck; infer_instance

instance : Decidable r.round5WzwCheck := by
  unfold round5WzwCheck; infer_instance

theorem Good.hn0 {r : ProverRun F} (hg : r.Good) : 0 < r.n := by
  have := hg.hn
  omega

theorem Good.hnF {r : ProverRun F} (hg : r.Good) : ((r.n : ℕ) : F) ≠ 0 := by
  intro h0
  apply hg.hchar
  push_cast
  rw [h0, mul_zero]

theorem Good.homega_prim {r : ProverRun F} (hg : r.Good) :
    isPrimRoot r.omega r.n := by
  rw [hg.homega]
  exact hg.hmu.pow_four

theorem getD_ZH {i : ℕ} (hi : i < 4 * r.n) :
    r.ZH_big.getD i 0 = (r.mu ^ i * r.fft_cofactor) ^ r.n - 1 :=
  getD_range_map _ hi 0

theorem ZH_ne_zero (hg : r.Good) {i : ℕ} (hi : i < 4 * r.n) :
    r.ZH_big.getD i 0 ≠ 0 := by
  rw [r.getD_ZH hi]
  intro h0
  have h1 : (r.mu ^ i * r.fft_cofactor) ^ r.n = 1 := sub_eq_zero.mp h0
  apply hg.hk1
  have h2 : (r.mu ^ i * r.fft_cofactor) ^ (4 * r.n) = 1 := by
    rw [mul_comm 4 r.n, pow_mul, h1, one_pow]
  rwa [mul_pow, ← pow_mul, mul_comm i (4 * r.n), pow_mul, hg.hmu.1, one_pow,
    one_mul] at h2

theorem getD_Z_shifted (hg : r.Good) {i : ℕ} (hi : i < 4 * r.n) :
    r.Z_shifted_big.getD i 0 =
      (interpPoly r.n r.omega r.Z).eval
        (r.omega * (r.fft_cofactor * r.mu ^ i)) := by
  unfold Z_shifted_big shift4
  rw [getD_range_map _ hi]
  have h4n0 : 0 < 4 * r.n := by
    have := hg.hn
    omega
  have hmod : (i + 4) % (4 * r.n) < 4 * r.n := Nat.mod_lt _ h4n0
  unfold Z_big
  rw [getD_to_coset_ext r.omega r.mu r.fft_cofactor r.Z hmod]
  congr 1
  rw [hg.hmu.pow_mod (i + 4), pow_add, hg.homega]
  ring

end ProverRun

namespace ProverRun

variable (r : ProverRun F)

/-- Interpolant of the stored `A` (proof scaffolding). -/
noncomputable def Ap : Polynomial F := interpPoly r.n r.omega r.A

/-- Interpolant of `B`. -/
noncomputable def Bp : Polynomial F := interpPoly r.n r.omega r.B

/-- Interpolant of `C`. -/
noncomputable def Cp : Polynomial F := interpPoly r.n r.omega r.C

/-- Interpolant of `PI`. -/
noncomputable def PIp : Polynomial F := interpPoly r.n r.omega r.PI

/-- Interpolant of `Z`. -/
noncomputable def Zp : Polynomial F := interpPoly r.n r.omega r.Z

/-- Interpolant of `QL`. -/
noncomputable def QLp : Polynomial F := interpPoly r.n r.omega r.pk.QL

/-- Interpolant of `QR`. -/
noncomputable def QRp : Polynomial F := interpPoly r.n r.omega r.pk.QR

/-- Interpolant of `QM`. -/
noncomputable def QMp : Polynomial F := interpPoly r.n r.omega r.pk.QM

/-- Interpolant of `QO`. -/
noncomputable def QOp : Polynomial F := interpPoly r.n r.omega r.pk.QO

/-- Interpolant of `QC`. -/
noncomputable def QCp : Polynomial F := interpPoly r.n r.omega r.pk.QC

/-- Interpolant of `S1`. -/
noncomputable def S1p : Polynomial F := interpPoly r.n r.omega r.pk.S1

/-- Interpolant of `S2`. -/
noncomputable def S2p : Polynomial F := interpPoly r.n r.omega r.pk.S2

/-- Interpolant of `S3`. -/
noncomputable def S3p : Polynomial F := interpPoly r.n r.omega r.pk.S3

/-- Interpolant of the `L0` vector `[1, 0, …, 0]`. -/
noncomputable def L0p : Polynomial F :=
  interpPoly r.n r.omega (1 :: List.replicate (r.n - 1) 0)

/-- `Z(ωX)`: the interpolant of `Z` composed with multiplication by `ω`. -/
noncomputable def Zshp : Polynomial F :=
  r.Zp.comp (Polynomial.C r.omega * Polynomial.X)

/-- The numerator of the round-3 quotient, as a formal polynomial: the gate
combination plus `α` times the permutation terms plus `α²` times the boundary
term.  Its evaluations at the coset points are exactly the numerators the
source computes pointwise. -/
noncomputable def quotNum : Polynomial F :=
  (r.Ap * r.QLp + r.Bp * r.QRp + r.Ap * r.Bp * r.QMp + r.Cp * r.QOp +
    r.PIp + r.QCp) +
  (r.Ap + Polynomial.C r.beta * Polynomial.X + Polynomial.C r.gamma) *
    (r.Bp + Polynomial.C r.beta * (Polynomial.C 2 * Polynomial.X) +
      Polynomial.C r.gamma) *
    (r.Cp + Polynomial.C r.beta * (Polynomial.C 3 * Polynomial.X) +
      Polynomial.C r.gamma) *
    Polynomial.C r.alpha * r.Zp -
  (r.Ap + Polynomial.C r.beta * r.S1p + Polynomial.C r.gamma) *
    (r.Bp + Polynomial.C r.beta * r.S2p + Polynomial.C r.gamma) *
    (r.Cp + Polynomial.C r.beta * r.S3p + Polynomial.C r.gamma) *
    Polynomial.C r.alpha * r.Zshp +
  (r.Zp - 1) * r.L0p * Polynomial.C (r.alpha ^ 2)

/-- The quotient value the source computes at coset index `i` is the
evaluation of `quotNum` there, divided by the vanishing-polynomial value. -/
theorem QUOT_values_getD (hg : r.Good) {i : ℕ} (hi : i < 4 * r.n) :
    r.QUOT_values.getD i 0 =
      r.quotNum.eval (r.fft_cofactor * r.mu ^ i) / r.ZH_big.getD i 0 := by
  unfold QUOT_values
  rw [getD_range_map _ hi]
  congr 1
  rw [r.getD_Z_shifted hg hi]
  unfold quotNum Zshp
  simp only [A_big, B_big, C_big, PI_big, QL_big, QR_big, QM_big, QO_big,
    QC_big, Z_big, S1_big, S2_big, S3_big, L0_big]
  rw [getD_to_coset_ext r.omega r.mu r.fft_cofactor r.A hi,
    getD_to_coset_ext r.omega r.mu r.fft_cofactor r.B hi,
    getD_to_coset_ext r.omega r.mu r.fft_cofactor r.C hi,
    getD_to_coset_ext r.omega r.mu r.fft_cofactor r.PI hi,
    getD_to_coset_ext r.omega r.mu r.fft_cofactor r.pk.QL hi,
    getD_to_coset_ext r.omega r.mu r.fft_cofactor r.pk.QR hi,
    getD_to_coset_ext r.omega r.mu r.fft_cofactor r.pk.QM hi,
    getD_to_coset_ext r.omega r.mu r.fft_cofactor r.pk.QO hi,
    getD_to_coset_ext r.omega r.mu r.fft_cofactor r.pk.QC hi,
    getD_to_coset_ext r.omega r.mu r.fft_cofactor r.Z hi,
    getD_to_coset_ext r.omega r.mu r.fft_cofactor r.pk.S1 hi,
    getD_to_coset_ext r.omega r.mu r.fft_cofactor r.pk.S2 hi,
    getD_to_coset_ext r.omega r.mu r.fft_cofactor r.pk.S3 hi,
    getD_to_coset_ext r.omega r.mu r.fft_cofactor
      (1 :: List.replicate (r.n - 1) 0) hi]
  simp only [Ap, Bp, Cp, PIp, Zp, QLp, QRp, QMp, QOp, QCp, S1p, S2p, S3p,
    L0p, rlc, Polynomial.eval_add, Polynomial.eval_sub, Polynomial.eval_mul,
    Polynomial.eval_comp, Polynomial.eval_pow, Polynomial.eval_C,
    Polynomial.eval_X, Polynomial.eval_one]
  ring

end ProverRun

namespace ProverRun

variable (r : ProverRun F)

theorem natDegree_interp_le (hg : r.Good) (v : List F) :
    (interpPoly r.n r.omega v).natDegree ≤ r.n - 1 := by
  have := interpPoly_natDegree_lt r.n hg.hn0 r.omega v
  omega

/-- Degree bound: the quotient numerator has degree at most `4n - 4 < 4n`. -/
theorem quotNum_natDegree_lt (hg : r.Good) :
    r.quotNum.natDegree < 4 * r.n := by
  have hn2 := hg.hn
  set d := r.n - 1 with hdd
  have hd1 : 1 ≤ d := by omega
  have hAd : r.Ap.natDegree ≤ d := r.natDegree_interp_le hg r.A
  have hBd : r.Bp.natDegree ≤ d := r.natDegree_interp_le hg r.B
  have hCd : r.Cp.natDegree ≤ d := r.natDegree_interp_le hg r.C
  have hPId : r.PIp.natDegree ≤ d := r.natDegree_interp_le hg r.PI
  have hZd : r.Zp.natDegree ≤ d := r.natDegree_interp_le hg r.Z
  have hQLd : r.QLp.natDegree ≤ d := r.natDegree_interp_le hg r.pk.QL
  have hQRd : r.QRp.natDegree ≤ d := r.natDegree_interp_le hg r.pk.QR
  have hQMd : r.QMp.natDegree ≤ d := r.natDegree_interp_le hg r.pk.QM
  have hQOd : r.QOp.natDegree ≤ d := r.natDegree_interp_le hg r.pk.QO
  have hQCd : r.QCp.natDegree ≤ d := r.natDegree_interp_le hg r.pk.QC
  have hS1d : r.S1p.natDegree ≤ d := r.natDegree_interp_le hg r.pk.S1
  have hS2d : r.S2p.natDegree ≤ d := r.natDegree_interp_le hg r.pk.S2
  have hS3d : r.S3p.natDegree ≤ d := r.natDegree_interp_le hg r.pk.S3
  have hL0d : r.L0p.natDegree ≤ d := r.natDegree_interp_le hg _
  have hZshd : r.Zshp.natDegree ≤ d := by
    refine le_trans Polynomial.natDegree_comp_le ?_
    have hx : (Polynomial.C r.omega * Polynomial.X : Polynomial F).natDegree ≤ 1 := by
      refine le_trans Polynomial.natDegree_mul_le ?_
      simp [Polynomial.natDegree_C, Polynomial.natDegree_X]
    calc r.Zp.natDegree * (Polynomial.C r.omega * Polynomial.X).natDegree
        ≤ d * 1 := Nat.mul_le_mul hZd hx
      _ = d := by omega
  have hmul2 : ∀ p q : Polynomial F, p.natDegree ≤ d → q.natDegree ≤ d →
      (p * q).natDegree ≤ 2 * d := by
    intro p q hp hq
    refine le_trans Polynomial.natDegree_mul_le ?_
    omega
  have hgate : (r.Ap * r.QLp + r.Bp * r.QRp + r.Ap * r.Bp * r.QMp +
      r.Cp * r.QOp + r.PIp + r.QCp).natDegree ≤ 3 * d := by
    have h1 : (r.Ap * r.QLp).natDegree ≤ 2 * d := hmul2 _ _ hAd hQLd
    have h2 : (r.Bp * r.QRp).natDegree ≤ 2 * d := hmul2 _ _ hBd hQRd
    have h3 : (r.Ap * r.Bp * r.QMp).natDegree ≤ 3 * d := by
      refine le_trans Polynomial.natDegree_mul_le ?_
      have := hmul2 _ _ hAd hBd
      omega
    have h4 : (r.Cp * r.QOp).natDegree ≤ 2 * d := hmul2 _ _ hCd hQOd
    refine le_trans (Polynomial.natDegree_add_le _ _) (max_le ?_ (by omega))
    refine le_trans (Polynomial.natDegree_add_le _ _) (max_le ?_ (by omega))
    refine le_trans (Polynomial.natDegree_add_le _ _) (max_le ?_ (by omega))
    refine le_trans (Polynomial.natDegree_add_le _ _) (max_le ?_ (by omega))
    exact le_trans (Polynomial.natDegree_add_le _ _) (max_le (by omega) (by omega))
  have hfac : ∀ p q : Polynomial F, p.natDegree ≤ d → q.natDegree ≤ d →
      (p + q + Polynomial.C r.gamma).natDegree ≤ d := by
    intro p q hp hq
    refine le_trans (Polynomial.natDegree_add_le _ _) (max_le ?_ ?_)
    · exact le_trans (Polynomial.natDegree_add_le _ _) (max_le hp hq)
    · rw [Polynomial.natDegree_C]
      omega
  have hbX : (Polynomial.C r.beta * Polynomial.X : Polynomial F).natDegree ≤ d := by
    refine le_trans Polynomial.natDegree_mul_le ?_
    simp [Polynomial.natDegree_C, Polynomial.natDegree_X]
    omega
  have hbcX : ∀ c : F, (Polynomial.C r.beta *
      (Polynomial.C c * Polynomial.X) : Polynomial F).natDegree ≤ d := by
    intro c
    refine le_trans Polynomial.natDegree_mul_le ?_
    have : (Polynomial.C c * Polynomial.X : Polynomial F).natDegree ≤ 1 := by
      refine le_trans Polynomial.natDegree_mul_le ?_
      simp [Polynomial.natDegree_C, Polynomial.natDegree_X]
    rw [Polynomial.natDegree_C]
    omega
  have hbS : ∀ q : Polynomial F, q.natDegree ≤ d →
      (Polynomial.C r.beta * q).natDegree ≤ d := by
    intro q hq
    refine le_trans Polynomial.natDegree_mul_le ?_
    rw [Polynomial.natDegree_C]
    omega
  have hperm : ∀ f1 f2 f3 z : Polynomial F, f1.natDegree ≤ d →
      f2.natDegree ≤ d → f3.natDegree ≤ d → z.natDegree ≤ d →
      (f1 * f2 * f3 * Polynomial.C r.alpha * z).natDegree ≤ 4 * d := by
    intro f1 f2 f3 z h1 h2 h3 hz
    refine le_trans Polynomial.natDegree_mul_le ?_
    have hz3 : (f1 * f2 * f3 * Polynomial.C r.alpha).natDegree ≤ 3 * d := by
      refine le_trans Polynomial.natDegree_mul_le ?_
      rw [Polynomial.natDegree_C]
      have h12 : (f1 * f2).natDegree ≤ 2 * d := hmul2 _ _ h1 h2
      have h123 : (f1 * f2 * f3).natDegree ≤ 3 * d := by
        refine le_trans Polynomial.natDegree_mul_le ?_
        omega
      omega
    omega
  have hpn : ((r.Ap + Polynomial.C r.beta * Polynomial.X +
      Polynomial.C r.gamma) *
      (r.Bp + Polynomial.C r.beta * (Polynomial.C 2 * Polynomial.X) +
        Polynomial.C r.gamma) *
      (r.Cp + Polynomial.C r.beta * (Polynomial.C 3 * Polynomial.X) +
        Polynomial.C r.gamma) *
      Polynomial.C r.alpha * r.Zp).natDegree ≤ 4 * d :=
    hperm _ _ _ _ (hfac _ _ hAd hbX) (hfac _ _ hBd (hbcX 2))
      (hfac _ _ hCd (hbcX 3)) hZd
  have hpd : ((r.Ap + Polynomial.C r.beta * r.S1p + Polynomial.C r.gamma) *
      (r.Bp + Polynomial.C r.beta * r.S2p + Polynomial.C r.gamma) *
      (r.Cp + Polynomial.C r.beta * r.S3p + Polynomial.C r.gamma) *
      Polynomial.C r.alpha * r.Zshp).natDegree ≤ 4 * d :=
    hperm _ _ _ _ (hfac _ _ hAd (hbS _ hS1d)) (hfac _ _ hBd (hbS _ hS2d))
      (hfac _ _ hCd (hbS _ hS3d)) hZshd
  have hbdry : ((r.Zp - 1) * r.L0p *
      Polynomial.C (r.alpha ^ 2)).natDegree ≤ 2 * d := by
    refine le_trans Polynomial.natDegree_mul_le ?_
    rw [Polynomial.natDegree_C]
    have hz1 : (r.Zp - 1 : Polynomial F).natDegree ≤ d := by
      refine le_trans (Polynomial.natDegree_sub_le _ _) (max_le hZd ?_)
      rw [Polynomial.natDegree_one]
      omega
    have := hmul2 _ _ hz1 hL0d
    omega
  have htot : r.quotNum.natDegree ≤ 4 * d := by
    unfold quotNum
    refine le_trans (Polynomial.natDegree_add_le _ _) (max_le ?_ (by omega))
    refine le_trans (Polynomial.natDegree_sub_le _ _) (max_le ?_ (by omega))
    exact le_trans (Polynomial.natDegree_add_le _ _)
      (max_le (by omega) (by omega))
  omega

/-- Vanishing on `H`: under the gate identity and the accumulator relations,
the quotient numerator vanishes at every `ω^l`. -/
theorem quotNum_eval_root (hg : r.Good) (hgate : r.gateHolds)
    (hacc : r.accHolds) {l : ℕ} (hl : l < r.n) :
    r.quotNum.eval (r.omega ^ l) = 0 := by
  have hωp := hg.homega_prim
  have hnF := hg.hnF
  have hZsh : r.Zshp.eval (r.omega ^ l) =
      r.Z.getD ((l + 1) % r.n) 0 := by
    unfold Zshp Zp
    rw [Polynomial.eval_comp]
    simp only [Polynomial.eval_mul, Polynomial.eval_C, Polynomial.eval_X]
    have hstep : r.omega * r.omega ^ l = r.omega ^ ((l + 1) % r.n) := by
      rw [hωp.pow_mod (l + 1), pow_succ]
      ring
    rw [hstep, interpPoly_eval_root hωp hnF r.Z hg.hZ (Nat.mod_lt _ hg.hn0)]
  have hL0 : r.L0p.eval (r.omega ^ l) =
      (1 :: List.replicate (r.n - 1) (0 : F)).getD l 0 := by
    unfold L0p
    rw [interpPoly_eval_root hωp hnF _ (by simp; omega) hl]
  unfold quotNum
  simp only [Ap, Bp, Cp, PIp, Zp, QLp, QRp, QMp, QOp, QCp, S1p, S2p, S3p,
    Polynomial.eval_add, Polynomial.eval_sub, Polynomial.eval_mul,
    Polynomial.eval_C, Polynomial.eval_X, Polynomial.eval_one]
  rw [hZsh, hL0,
    interpPoly_eval_root hωp hnF r.A hg.hA hl,
    interpPoly_eval_root hωp hnF r.B hg.hB hl,
    interpPoly_eval_root hωp hnF r.C hg.hC hl,
    interpPoly_eval_root hωp hnF r.PI hg.hPI hl,
    interpPoly_eval_root hωp hnF r.Z hg.hZ hl,
    interpPoly_eval_root hωp hnF r.pk.QL hg.hQL hl,
    interpPoly_eval_root hωp hnF r.pk.QR hg.hQR hl,
    interpPoly_eval_root hωp hnF r.pk.QM hg.hQM hl,
    interpPoly_eval_root hωp hnF r.pk.QO hg.hQO hl,
    interpPoly_eval_root hωp hnF r.pk.QC hg.hQC hl,
    interpPoly_eval_root hωp hnF r.pk.S1 hg.hS1 hl,
    interpPoly_eval_root hωp hnF r.pk.S2 hg.hS2 hl,
    interpPoly_eval_root hωp hnF r.pk.S3 hg.hS3 hl]
  have hg0 := hgate l hl
  have ha2 := hacc.2 l hl
  simp only [rlc] at ha2
  rcases Nat.eq_zero_or_pos l with hl0 | hl0
  · subst hl0
    have hZ0 := hacc.1
    simp only [List.getD_cons_zero]
    linear_combination hg0 + r.alpha * ha2 + r.alpha ^ 2 * hZ0
  · have hL0v : (1 :: List.replicate (r.n - 1) (0 : F)).getD l 0 = 0 := by
      rcases l with _ | l2
      · omega
      · rw [List.getD_cons_succ]
        exact getD_replicate_zero
    rw [hL0v]
    linear_combination hg0 + r.alpha * ha2

/-- The quotient polynomial `T` of round 3: the numerator factors as
`(X^n - 1) * T` with `deg T < 3n`, the pointwise quotient values are the
evaluations of `T` on the coset, and the recovered coefficient list is the
coefficient list of `T`. -/
theorem exists_T (hg : r.Good) (hgate : r.gateHolds) (hacc : r.accHolds) :
    ∃ T : Polynomial F, T.natDegree < 3 * r.n ∧
      r.quotNum = (Polynomial.X ^ r.n - 1) * T ∧
      r.QUOT_values = (List.range (4 * r.n)).map
        (fun i => T.eval (r.fft_cofactor * r.mu ^ i)) ∧
      r.QUOT_coeffs = polyToList T (4 * r.n) := by
  obtain ⟨T, hfact, hdeg⟩ := exists_quotient_by_vanishing r.n (3 * r.n)
    hg.hn0 (by have := hg.hn0; omega) hg.homega_prim r.quotNum
    (by have := r.quotNum_natDegree_lt hg; omega)
    (fun l hl => r.quotNum_eval_root hg hgate hacc hl)
  have hvals : r.QUOT_values = (List.range (4 * r.n)).map
      (fun i => T.eval (r.fft_cofactor * r.mu ^ i)) := by
    apply list_eq_of_getD _ _ 0
    · unfold QUOT_values
      simp
    · intro i hi
      have him : i < 4 * r.n := by
        unfold QUOT_values at hi
        simpa using hi
      rw [getD_range_map _ him, r.QUOT_values_getD hg him, hfact,
        Polynomial.eval_mul]
      have hZH := r.getD_ZH him
      simp only [Polynomial.eval_sub, Polynomial.eval_pow, Polynomial.eval_X,
        Polynomial.eval_one]
      rw [hZH, mul_comm (r.mu ^ i) r.fft_cofactor]
      exact mul_div_cancel_left₀ _ (by
        have := r.ZH_ne_zero hg him
        rw [r.getD_ZH him, mul_comm (r.mu ^ i) r.fft_cofactor] at this
        exact this)
  refine ⟨T, hdeg, hfact, hvals, ?_⟩
  unfold QUOT_coeffs
  rw [hvals]
  exact invFFT_of_poly hg.hmu hg.hchar hg.hk0 T (by omega) _ rfl

end ProverRun

theorem getD_drop {α : Type} (l : List α) (k i : ℕ) (d : α) :
    (l.drop k).getD i d = l.getD (k + i) d := by
  rw [List.getD_eq_getElem?_getD, List.getD_eq_getElem?_getD,
    List.getElem?_drop]

theorem getD_take {α : Type} (l : List α) {k i : ℕ} (h : i < k) (d : α) :
    (l.take k).getD i d = l.getD i d := by
  rw [List.getD_eq_getElem?_getD, List.getD_eq_getElem?_getD,
    List.getElem?_take_of_lt h]

theorem ProverRun.QUOT_tail_zero (r : ProverRun F) (hg : r.Good)
    (hgate : r.gateHolds) (hacc : r.accHolds) :
    ∀ j, 3 * r.n ≤ j → j < 4 * r.n → r.QUOT_coeffs.getD j 0 = 0 := by
  obtain ⟨T, hdeg, hfact, hvals, hcoef⟩ := r.exists_T hg hgate hacc
  intro j h3 h4
  rw [hcoef, getD_polyToList _ h4]
  exact Polynomial.coeff_eq_zero_of_natDegree_lt (lt_of_lt_of_le hdeg h3)

theorem ProverRun.round3DegreeCheck_of (r : ProverRun F) (hg : r.Good)
    (hgate : r.gateHolds) (hacc : r.accHolds) : r.round3DegreeCheck := by
  have hzero := r.QUOT_tail_zero hg hgate hacc
  unfold ProverRun.round3DegreeCheck
  have hlen : r.QUOT_coeffs.length = 4 * r.n := by
    unfold ProverRun.QUOT_coeffs
    rw [length_invFFT]
  apply list_eq_of_getD _ _ 0
  · rw [List.length_drop, List.length_replicate, hlen]
    omega
  · intro i hi
    rw [List.length_drop, hlen] at hi
    rw [getD_drop, getD_replicate_zero]
    exact hzero _ (by omega) (by omega)

/-- C3: under the precondition that rounds 1 and 2 succeeded (the gate
identity holds at every `ω^i` and the accumulator relations hold), the
monomial-coefficient form of the quotient computed pointwise on the
`4n`-coset in `round_3` has zero coefficients at every index in `[3n, 4n)`
— so `deg T < 3n` — and the `round_3` assertion on the top `n` coefficients
(`QUOT_coeffs[-n:] == [0]*n`) holds. -/
theorem C3_quotient_degree_bound (r : ProverRun F) (hg : r.Good)
    (hgate : r.gateHolds) (hacc : r.accHolds) :
    (∀ j, 3 * r.n ≤ j → j < 4 * r.n → r.QUOT_coeffs.getD j 0 = 0) ∧
      r.round3DegreeCheck :=
  ⟨r.QUOT_tail_zero hg hgate hacc, r.round3DegreeCheck_of hg hgate hacc⟩

instance : Fact (Nat.Prime 17) := ⟨by norm_num⟩

/-- Concrete preprocessed input over `GF(17)` used by the numeric witnesses:
a two-row circuit with gate equation `5·1 + 1·(-5) = 0` in row 0 and a
swapped copy constraint on the `A` column. -/
def pkW : CommonPreprocessedInput (ZMod 17) :=
  ⟨[1, 0], [0, 0], [0, 0], [12, 0], [0, 0], [16, 1], [2, 15], [3, 14]⟩

/-- Concrete prover run over `GF(17)` (`n = 2`, `μ = 2`, `ω = μ^4 = 16`,
`κ = 3`) used by the numeric witnesses; its gate identity and accumulator
relations hold and its quotient is non-trivial. -/
def rW : ProverRun (ZMod 17) :=
  { n := 2, omega := 16, mu := 2, beta := 1, gamma := 0, alpha := 5,
    fft_cofactor := 3, zeta := 4, v := 7,
    A := [5, 5], B := [0, 0], C := [1, 0], PI := [0, 0], Z := [1, 10],
    pk := pkW }

theorem rW_good : rW.Good := by
  constructor <;> decide

/-- Witness for C3 at the concrete `GF(17)` run. -/
theorem C3_quotient_degree_bound_witness :
    rW.Good ∧ rW.gateHolds ∧ rW.accHolds ∧
      ((∀ j, 3 * rW.n ≤ j → j < 4 * rW.n → rW.QUOT_coeffs.getD j 0 = 0) ∧
        rW.round3DegreeCheck) :=
  ⟨rW_good, by decide, by decide,
    C3_quotient_degree_bound rW rW_good (by decide) (by decide)⟩

/-- Chunk recombination: splitting the first `3n` coefficients of `T`
(of degree `< 3n`) into three length-`n` chunks and recombining them with
powers of `x` recovers `T(x)`. -/
theorem chunks_eval (T : Polynomial F) (n : ℕ) (hn : 0 < n)
    (hT : T.natDegree < 3 * n) (x : F) :
    evalc ((polyToList T (4 * n)).take n) x +
      evalc (((polyToList T (4 * n)).drop n).take n) x * x ^ n +
      evalc (((polyToList T (4 * n)).drop (2 * n)).take n) x * x ^ (n * 2) =
    T.eval x := by
  have hlen : (polyToList T (4 * n)).length = 4 * n := length_polyToList T _
  have hl1 : ((polyToList T (4 * n)).take n).length = n := by
    simp [hlen]
    omega
  have hl2 : (((polyToList T (4 * n)).drop n).take n).length = n := by
    simp [hlen]
    omega
  have hl3 : (((polyToList T (4 * n)).drop (2 * n)).take n).length = n := by
    simp [hlen]
    omega
  unfold evalc
  rw [hl1, hl2, hl3]
  have hc1 : ∀ j ∈ Finset.range n,
      ((polyToList T (4 * n)).take n).getD j 0 * x ^ j =
        T.coeff j * x ^ j := by
    intro j hj
    rw [getD_take _ (mem_range.mp hj), getD_polyToList _ (by
      have := mem_range.mp hj
      omega)]
  have hc2 : ∀ j ∈ Finset.range n,
      (((polyToList T (4 * n)).drop n).take n).getD j 0 * x ^ j =
        T.coeff (n + j) * x ^ j := by
    intro j hj
    rw [getD_take _ (mem_range.mp hj), getD_drop, getD_polyToList _ (by
      have := mem_range.mp hj
      omega)]
  have hc3 : ∀ j ∈ Finset.range n,
      (((polyToList T (4 * n)).drop (2 * n)).take n).getD j 0 * x ^ j =
        T.coeff (2 * n + j) * x ^ j := by
    intro j hj
    rw [getD_take _ (mem_range.mp hj), getD_drop, getD_polyToList _ (by
      have := mem_range.mp hj
      omega)]
  rw [Finset.sum_congr rfl hc1, Finset.sum_congr rfl hc2,
    Finset.sum_congr rfl hc3]
  rw [Polynomial.eval_eq_sum_range' hT x]
  have h3n : 3 * n = n + (n + n) := by omega
  rw [h3n, Finset.sum_range_add, Finset.sum_range_add]
  have e2 : (∑ j ∈ Finset.range n, T.coeff (n + j) * x ^ j) * x ^ n =
      ∑ j ∈ Finset.range n, T.coeff (n + j) * x ^ (n + j) := by
    rw [Finset.sum_mul]
    refine Finset.sum_congr rfl fun j hj => ?_
    rw [mul_assoc, ← pow_add, add_comm j n]
  have e3 : (∑ j ∈ Finset.range n, T.coeff (2 * n + j) * x ^ j) *
      x ^ (n * 2) = ∑ j ∈ Finset.range n,
        T.coeff (n + (n + j)) * x ^ (n + (n + j)) := by
    rw [Finset.sum_mul]
    refine Finset.sum_congr rfl fun j hj => ?_
    have hidx : 2 * n + j = n + (n + j) := by omega
    have hexp : j + n * 2 = n + (n + j) := by omega
    rw [mul_assoc, ← pow_add, hidx, hexp]
  rw [e2, e3]
  ring

namespace ProverRun

theorem round3CrossCheck_of (r : ProverRun F) (hg : r.Good)
    (hgate : r.gateHolds) (hacc : r.accHolds) : r.round3CrossCheck := by
  obtain ⟨T, hdeg, hfact, hvals, hcoef⟩ := r.exists_T hg hgate hacc
  have hlenq : r.QUOT_coeffs.length = 4 * r.n := by
    unfold QUOT_coeffs
    rw [length_invFFT]
  unfold round3CrossCheck T1 T2 T3 T1_chunk T2_chunk T3_chunk
  have hbar : ∀ cs : List F, cs.length = r.n →
      barycentric_eval r.n r.omega (fftEval r.n r.omega 1 cs)
        r.fft_cofactor = evalc cs r.fft_cofactor := by
    intro cs hc
    unfold barycentric_eval
    rw [invFFT_fftEval hg.homega_prim hg.hnF one_ne_zero cs hc]
  have hn4 : r.n ≤ 4 * r.n := by omega
  rw [hbar _ (by simp [hlenq]; omega),
    hbar _ (by simp [hlenq]; omega),
    hbar _ (by simp [hlenq]; omega)]
  have hq0 : r.QUOT_values.getD 0 0 = T.eval r.fft_cofactor := by
    rw [hvals, getD_range_map _ (by have := hg.hn0; omega)]
    simp
  rw [hq0, hcoef]
  exact chunks_eval T r.n hg.hn0 hdeg r.fft_cofactor

/-- C4: under the preconditions of a generated proof, the round-3
cross-check `T1(κ) + T2(κ)·κ^n + T3(κ)·κ^(2n) = QUOT_big.values[0]`
holds. -/
theorem C4_round3_cross_check (r : ProverRun F) (hg : r.Good)
    (hgate : r.gateHolds) (hacc : r.accHolds) : r.round3CrossCheck :=
  r.round3CrossCheck_of hg hgate hacc

end ProverRun

/-- Witness for C4 at the concrete `GF(17)` run. -/
theorem C4_round3_cross_check_witness :
    rW.Good ∧ rW.gateHolds ∧ rW.accHolds ∧ rW.round3CrossCheck :=
  ⟨rW_good, by decide, by decide,
    ProverRun.C4_round3_cross_check rW rW_good (by decide) (by decide)⟩

namespace ProverRun

variable (r : ProverRun F)

/-- Formal polynomial of the `T1` chunk (proof scaffolding). -/
noncomputable def T1p : Polynomial F := listToPoly r.T1_chunk

/-- Formal polynomial of the `T2` chunk. -/
noncomputable def T2p : Polynomial F := listToPoly r.T2_chunk

/-- Formal polynomial of the `T3` chunk. -/
noncomputable def T3p : Polynomial F := listToPoly r.T3_chunk

/-- The linearization polynomial `R` of round 5, as a formal polynomial:
the round-4 evaluations are substituted as scalars, so every term is linear
in one committed polynomial. -/
noncomputable def Rpoly : Polynomial F :=
  (Polynomial.C r.a_eval * r.QLp + Polynomial.C r.b_eval * r.QRp +
    Polynomial.C r.a_eval * Polynomial.C r.b_eval * r.QMp +
    Polynomial.C r.c_eval * r.QOp + Polynomial.C r.pi_eval + r.QCp) +
  Polynomial.C ((r.a_eval + r.beta * r.zeta + r.gamma) *
    (r.b_eval + r.beta * 2 * r.zeta + r.gamma) *
    (r.c_eval + r.beta * 3 * r.zeta + r.gamma) * r.alpha) * r.Zp -
  Polynomial.C ((r.a_eval + r.beta * r.s1_eval + r.gamma) *
    (r.b_eval + r.beta * r.s2_eval + r.gamma)) *
    (Polynomial.C r.c_eval + Polynomial.C r.beta * r.S3p +
      Polynomial.C r.gamma) *
    Polynomial.C (r.alpha * r.z_shifted_eval) +
  (r.Zp - 1) * Polynomial.C (r.l0_eval * r.alpha ^ 2) -
  (r.T1p + Polynomial.C (r.zeta ^ r.n) * r.T2p +
    Polynomial.C (r.zeta ^ (r.n * 2)) * r.T3p) * Polynomial.C r.zh_eval

theorem length_QUOT_coeffs : r.QUOT_coeffs.length = 4 * r.n := by
  unfold QUOT_coeffs
  rw [length_invFFT]

theorem length_R_coeffs : r.R_coeffs.length = 4 * r.n := by
  unfold R_coeffs
  rw [length_invFFT]

theorem length_T1_chunk (hg : r.Good) : r.T1_chunk.length = r.n := by
  unfold T1_chunk
  rw [List.length_take, r.length_QUOT_coeffs]
  omega

theorem length_T2_chunk (hg : r.Good) : r.T2_chunk.length = r.n := by
  unfold T2_chunk
  rw [List.length_take, List.length_drop, r.length_QUOT_coeffs]
  omega

theorem length_T3_chunk (hg : r.Good) : r.T3_chunk.length = r.n := by
  unfold T3_chunk
  rw [List.length_take, List.length_drop, r.length_QUOT_coeffs]
  omega

/-- The linearization value the source computes at coset index `i` is the
evaluation of `Rpoly` there. -/
theorem R_values_getD (hg : r.Good) {i : ℕ} (hi : i < 4 * r.n) :
    r.R_values.getD i 0 = r.Rpoly.eval (r.fft_cofactor * r.mu ^ i) := by
  unfold R_values
  rw [getD_range_map _ hi]
  have hT1 : r.T1_big.getD i 0 = r.T1p.eval (r.fft_cofactor * r.mu ^ i) := by
    unfold T1_big T1 T1p
    rw [getD_to_coset_ext _ _ _ _ hi,
      interpPoly_fftEval hg.homega_prim hg.hnF _ (r.length_T1_chunk hg)]
  have hT2 : r.T2_big.getD i 0 = r.T2p.eval (r.fft_cofactor * r.mu ^ i) := by
    unfold T2_big T2 T2p
    rw [getD_to_coset_ext _ _ _ _ hi,
      interpPoly_fftEval hg.homega_prim hg.hnF _ (r.length_T2_chunk hg)]
  have hT3 : r.T3_big.getD i 0 = r.T3p.eval (r.fft_cofactor * r.mu ^ i) := by
    unfold T3_big T3 T3p
    rw [getD_to_coset_ext _ _ _ _ hi,
      interpPoly_fftEval hg.homega_prim hg.hnF _ (r.length_T3_chunk hg)]
  rw [hT1, hT2, hT3]
  unfold Rpoly
  simp only [QL_big, QR_big, QM_big, QO_big, QC_big, Z_big, S3_big]
  rw [getD_to_coset_ext r.omega r.mu r.fft_cofactor r.pk.QL hi,
    getD_to_coset_ext r.omega r.mu r.fft_cofactor r.pk.QR hi,
    getD_to_coset_ext r.omega r.mu r.fft_cofactor r.pk.QM hi,
    getD_to_coset_ext r.omega r.mu r.fft_cofactor r.pk.QO hi,
    getD_to_coset_ext r.omega r.mu r.fft_cofactor r.pk.QC hi,
    getD_to_coset_ext r.omega r.mu r.fft_cofactor r.Z hi,
    getD_to_coset_ext r.omega r.mu r.fft_cofactor r.pk.S3 hi]
  simp only [QLp, QRp, QMp, QOp, QCp, Zp, S3p, Polynomial.eval_add,
    Polynomial.eval_sub, Polynomial.eval_mul, Polynomial.eval_C,
    Polynomial.eval_X, Polynomial.eval_one]
  ring

theorem Rpoly_natDegree_lt (hg : r.Good) : r.Rpoly.natDegree < r.n := by
  have hn2 := hg.hn
  set d := r.n - 1 with hdd
  have hCge : ∀ a : F, (Polynomial.C a : Polynomial F).natDegree ≤ d := by
    intro a
    rw [Polynomial.natDegree_C]
    omega
  have hCmul : ∀ (a : F) (p : Polynomial F), p.natDegree ≤ d →
      (Polynomial.C a * p).natDegree ≤ d := by
    intro a p hp
    refine le_trans Polynomial.natDegree_mul_le ?_
    rw [Polynomial.natDegree_C]
    omega
  have hAd : r.QLp.natDegree ≤ d := r.natDegree_interp_le hg r.pk.QL
  have hQRd : r.QRp.natDegree ≤ d := r.natDegree_interp_le hg r.pk.QR
  have hQMd : r.QMp.natDegree ≤ d := r.natDegree_interp_le hg r.pk.QM
  have hQOd : r.QOp.natDegree ≤ d := r.natDegree_interp_le hg r.pk.QO
  have hQCd : r.QCp.natDegree ≤ d := r.natDegree_interp_le hg r.pk.QC
  have hZd : r.Zp.natDegree ≤ d := r.natDegree_interp_le hg r.Z
  have hS3d : r.S3p.natDegree ≤ d := r.natDegree_interp_le hg r.pk.S3
  have hT1d : r.T1p.natDegree ≤ d := by
    unfold T1p
    have := natDegree_listToPoly_lt r.T1_chunk r.n hg.hn0
      (by rw [r.length_T1_chunk hg])
    omega
  have hT2d : r.T2p.natDegree ≤ d := by
    unfold T2p
    have := natDegree_listToPoly_lt r.T2_chunk r.n hg.hn0
      (by rw [r.length_T2_chunk hg])
    omega
  have hT3d : r.T3p.natDegree ≤ d := by
    unfold T3p
    have := natDegree_listToPoly_lt r.T3_chunk r.n hg.hn0
      (by rw [r.length_T3_chunk hg])
    omega
  have hgatel : (Polynomial.C r.a_eval * r.QLp + Polynomial.C r.b_eval *
      r.QRp + Polynomial.C r.a_eval * Polynomial.C r.b_eval * r.QMp +
      Polynomial.C r.c_eval * r.QOp + Polynomial.C r.pi_eval +
      r.QCp).natDegree ≤ d := by
    refine le_trans (Polynomial.natDegree_add_le _ _) (max_le ?_ hQCd)
    refine le_trans (Polynomial.natDegree_add_le _ _) (max_le ?_ (hCge _))
    refine le_trans (Polynomial.natDegree_add_le _ _)
      (max_le ?_ (hCmul _ _ hQOd))
    refine le_trans (Polynomial.natDegree_add_le _ _) (max_le ?_ ?_)
    · exact le_trans (Polynomial.natDegree_add_le _ _)
        (max_le (hCmul _ _ hAd) (hCmul _ _ hQRd))
    · refine le_trans Polynomial.natDegree_mul_le ?_
      have h1 : (Polynomial.C r.a_eval * Polynomial.C r.b_eval :
          Polynomial F).natDegree ≤ 0 := by
        refine le_trans Polynomial.natDegree_mul_le ?_
        simp [Polynomial.natDegree_C]
      omega
  have hS3t : (Polynomial.C ((r.a_eval + r.beta * r.s1_eval + r.gamma) *
      (r.b_eval + r.beta * r.s2_eval + r.gamma)) *
      (Polynomial.C r.c_eval + Polynomial.C r.beta * r.S3p +
        Polynomial.C r.gamma) *
      Polynomial.C (r.alpha * r.z_shifted_eval)).natDegree ≤ d := by
    refine le_trans Polynomial.natDegree_mul_le ?_
    rw [Polynomial.natDegree_C]
    have h2 : (Polynomial.C r.c_eval + Polynomial.C r.beta * r.S3p +
        Polynomial.C r.gamma).natDegree ≤ d := by
      refine le_trans (Polynomial.natDegree_add_le _ _) (max_le ?_ (hCge _))
      exact le_trans (Polynomial.natDegree_add_le _ _)
        (max_le (hCge _) (hCmul _ _ hS3d))
    have h3 := hCmul ((r.a_eval + r.beta * r.s1_eval + r.gamma) *
      (r.b_eval + r.beta * r.s2_eval + r.gamma)) _ h2
    omega
  have hbdry : ((r.Zp - 1) *
      Polynomial.C (r.l0_eval * r.alpha ^ 2)).natDegree ≤ d := by
    refine le_trans Polynomial.natDegree_mul_le ?_
    rw [Polynomial.natDegree_C]
    have hz1 : (r.Zp - 1 : Polynomial F).natDegree ≤ d := by
      refine le_trans (Polynomial.natDegree_sub_le _ _) (max_le hZd ?_)
      rw [Polynomial.natDegree_one]
      omega
    omega
  have hTt : ((r.T1p + Polynomial.C (r.zeta ^ r.n) * r.T2p +
      Polynomial.C (r.zeta ^ (r.n * 2)) * r.T3p) *
      Polynomial.C r.zh_eval).natDegree ≤ d := by
    refine le_trans Polynomial.natDegree_mul_le ?_
    rw [Polynomial.natDegree_C]
    have h4 : (r.T1p + Polynomial.C (r.zeta ^ r.n) * r.T2p +
        Polynomial.C (r.zeta ^ (r.n * 2)) * r.T3p).natDegree ≤ d := by
      refine le_trans (Polynomial.natDegree_add_le _ _)
        (max_le ?_ (hCmul _ _ hT3d))
      exact le_trans (Polynomial.natDegree_add_le _ _)
        (max_le hT1d (hCmul _ _ hT2d))
    omega
  have htot : r.Rpoly.natDegree ≤ d := by
    unfold Rpoly
    refine le_trans (Polynomial.natDegree_sub_le _ _) (max_le ?_ hTt)
    refine le_trans (Polynomial.natDegree_add_le _ _) (max_le ?_ hbdry)
    refine le_trans (Polynomial.natDegree_sub_le _ _) (max_le ?_ hS3t)
    exact le_trans (Polynomial.natDegree_add_le _ _)
      (max_le hgatel (hCmul _ _ hZd))
  omega

/-- The linearization polynomial vanishes at `ζ`. -/
theorem Rpoly_eval_zeta (hg : r.Good) (hgate : r.gateHolds)
    (hacc : r.accHolds) : r.Rpoly.eval r.zeta = 0 := by
  obtain ⟨T, hdeg, hfact, hvals, hcoef⟩ := r.exists_T hg hgate hacc
  have hchunks : evalc r.T1_chunk r.zeta +
      evalc r.T2_chunk r.zeta * r.zeta ^ r.n +
      evalc r.T3_chunk r.zeta * r.zeta ^ (r.n * 2) = T.eval r.zeta := by
    unfold T1_chunk T2_chunk T3_chunk
    rw [hcoef]
    exact chunks_eval T r.n hg.hn0 hdeg r.zeta
  have ha : r.a_eval = r.Ap.eval r.zeta := by
    unfold a_eval Ap
    rw [barycentric_eval_eq]
  have hb : r.b_eval = r.Bp.eval r.zeta := by
    unfold b_eval Bp
    rw [barycentric_eval_eq]
  have hc : r.c_eval = r.Cp.eval r.zeta := by
    unfold c_eval Cp
    rw [barycentric_eval_eq]
  have hs1 : r.s1_eval = r.S1p.eval r.zeta := by
    unfold s1_eval S1p
    rw [barycentric_eval_eq]
  have hs2 : r.s2_eval = r.S2p.eval r.zeta := by
    unfold s2_eval S2p
    rw [barycentric_eval_eq]
  have hzse : r.z_shifted_eval = r.Zp.eval (r.omega * r.zeta) := by
    unfold z_shifted_eval Zp
    rw [barycentric_eval_eq, mul_comm]
  have hpi : r.pi_eval = r.PIp.eval r.zeta := by
    unfold pi_eval PIp
    rw [barycentric_eval_eq]
  have hl0 : r.l0_eval = r.L0p.eval r.zeta := by
    unfold l0_eval L0p
    rw [barycentric_eval_eq]
  have hqn : r.quotNum.eval r.zeta = (r.zeta ^ r.n - 1) * T.eval r.zeta := by
    rw [hfact]
    simp [Polynomial.eval_mul, Polynomial.eval_sub, Polynomial.eval_pow]
  unfold quotNum Zshp at hqn
  simp only [Polynomial.eval_add, Polynomial.eval_sub, Polynomial.eval_mul,
    Polynomial.eval_comp, Polynomial.eval_C, Polynomial.eval_X,
    Polynomial.eval_one] at hqn
  unfold Rpoly T1p T2p T3p zh_eval
  simp only [Polynomial.eval_add, Polynomial.eval_sub, Polynomial.eval_mul,
    Polynomial.eval_C, Polynomial.eval_X, Polynomial.eval_one,
    eval_listToPoly]
  rw [ha, hb, hc, hs1, hs2, hzse, hpi, hl0]
  linear_combination hqn - (r.zeta ^ r.n - 1) * hchunks

theorem round5RCheck_of (r : ProverRun F) (hg : r.Good)
    (hgate : r.gateHolds) (hacc : r.accHolds) : r.round5RCheck := by
  have hR0 := r.Rpoly_eval_zeta hg hgate hacc
  have hRdeg := r.Rpoly_natDegree_lt hg
  have hcoeffs : r.R_coeffs = polyToList r.Rpoly (4 * r.n) := by
    unfold R_coeffs
    refine invFFT_of_poly hg.hmu hg.hchar hg.hk0 r.Rpoly (by omega) _ ?_
    apply list_eq_of_getD _ _ 0
    · unfold R_values
      simp
    · intro i hi
      have him : i < 4 * r.n := by
        unfold R_values at hi
        simpa using hi
      rw [r.R_values_getD hg him, getD_range_map _ him]
  unfold round5RCheck R_lag
  unfold barycentric_eval
  rw [invFFT_fftEval hg.homega_prim hg.hnF one_ne_zero _ (by
    rw [List.length_take, r.length_R_coeffs]
    omega)]
  rw [hcoeffs]
  have htake : (polyToList r.Rpoly (4 * r.n)).take r.n =
      polyToList r.Rpoly r.n := by
    unfold polyToList
    rw [← List.map_take, List.take_range]
    have hmin : min r.n (4 * r.n) = r.n := by omega
    rw [hmin]
  rw [htake, evalc_polyToList _ hRdeg]
  exact hR0

/-- C5: the round-5 linearization sanity check `R(ζ) = 0` holds for every
run whose earlier rounds were consistent. -/
theorem C5_linearization_vanishes (r : ProverRun F) (hg : r.Good)
    (hgate : r.gateHolds) (hacc : r.accHolds) : r.round5RCheck :=
  r.round5RCheck_of hg hgate hacc

end ProverRun

/-- Witness for C5 at the concrete `GF(17)` run. -/
theorem C5_linearization_vanishes_witness :
    rW.Good ∧ rW.gateHolds ∧ rW.accHolds ∧ rW.round5RCheck :=
  ⟨rW_good, by decide, by decide,
    ProverRun.C5_linearization_vanishes rW rW_good (by decide) (by decide)⟩

theorem polyToList_drop_replicate (Q : Polynomial F) (n : ℕ) (hn : 0 < n)
    (hQ : Q.natDegree < n) :
    (polyToList Q (4 * n)).drop n = List.replicate (3 * n) (0 : F) := by
  apply list_eq_of_getD _ _ 0
  · rw [List.length_drop, length_polyToList, List.length_replicate]
    omega
  · intro i hi
    rw [List.length_drop, length_polyToList] at hi
    rw [getD_drop, getD_replicate_zero, getD_polyToList _ (by omega)]
    exact Polynomial.coeff_eq_zero_of_natDegree_lt (by omega)

namespace ProverRun

variable (r : ProverRun F)

/-- The `W_zw` opening: when `ζ·ω` avoids the coset, the pointwise quotient
is a polynomial of degree `< n` and the recovered coefficients are its
coefficient list. -/
theorem Wzw_coeffs_eq (hg : r.Good)
    (hζω : ∀ i, i < 4 * r.n → r.fft_cofactor * r.mu ^ i ≠ r.zeta * r.omega) :
    ∃ Q : Polynomial F, Q.natDegree < r.n ∧
      r.W_zw_coeffs = polyToList Q (4 * r.n) := by
  have hroot : (r.Zp - Polynomial.C r.z_shifted_eval).eval
      (r.zeta * r.omega) = 0 := by
    simp only [Polynomial.eval_sub, Polynomial.eval_C]
    rw [sub_eq_zero]
    unfold z_shifted_eval Zp
    rw [barycentric_eval_eq]
  have hNdeg : (r.Zp - Polynomial.C r.z_shifted_eval).natDegree <
      r.n + 1 := by
    refine lt_of_le_of_lt (Polynomial.natDegree_sub_le _ _) ?_
    rw [Polynomial.natDegree_C]
    have := interpPoly_natDegree_lt r.n hg.hn0 r.omega r.Z
    have hzp : r.Zp.natDegree < r.n := this
    omega
  obtain ⟨Q, hQfact, hQdeg⟩ := exists_quotient_by_linear
    (r.Zp - Polynomial.C r.z_shifted_eval) (r.zeta * r.omega) hroot r.n
    hg.hn0 hNdeg
  refine ⟨Q, hQdeg, ?_⟩
  unfold W_zw_coeffs
  refine invFFT_of_poly hg.hmu hg.hchar hg.hk0 Q (by omega) _ ?_
  unfold W_zw_values
  refine List.map_congr_left fun i hi => ?_
  have him : i < 4 * r.n := List.mem_range.mp hi
  have hx : r.fft_cofactor * r.mu ^ i - r.zeta * r.omega ≠ 0 :=
    sub_ne_zero.mpr (hζω i him)
  have hZb : r.Z_big.getD i 0 =
      r.Zp.eval (r.fft_cofactor * r.mu ^ i) := by
    unfold Z_big Zp
    exact getD_to_coset_ext r.omega r.mu r.fft_cofactor r.Z him
  have hnum : r.Z_big.getD i 0 - r.z_shifted_eval =
      (r.fft_cofactor * r.mu ^ i - r.zeta * r.omega) *
        Q.eval (r.fft_cofactor * r.mu ^ i) := by
    rw [hZb]
    have := congrArg (Polynomial.eval (r.fft_cofactor * r.mu ^ i)) hQfact
    simpa [Polynomial.eval_sub, Polynomial.eval_mul, Polynomial.eval_C,
      Polynomial.eval_X] using this
  rw [hnum, mul_div_cancel_left₀ _ hx]

/-- The `W_z` opening: when `ζ` avoids the coset and the earlier rounds were
consistent, the pointwise quotient is a polynomial of degree `< n` and the
recovered coefficients are its coefficient list. -/
theorem Wz_coeffs_eq (hg : r.Good) (hgate : r.gateHolds) (hacc : r.accHolds)
    (hζ : ∀ i, i < 4 * r.n → r.fft_cofactor * r.mu ^ i ≠ r.zeta) :
    ∃ Q : Polynomial F, Q.natDegree < r.n ∧
      r.W_z_coeffs = polyToList Q (4 * r.n) := by
  have hd := hg.hn0
  set NW : Polynomial F := r.Rpoly +
    Polynomial.C r.v * (r.Ap - Polynomial.C r.a_eval) +
    Polynomial.C (r.v ^ 2) * (r.Bp - Polynomial.C r.b_eval) +
    Polynomial.C (r.v ^ 3) * (r.Cp - Polynomial.C r.c_eval) +
    Polynomial.C (r.v ^ 4) * (r.S1p - Polynomial.C r.s1_eval) +
    Polynomial.C (r.v ^ 5) * (r.S2p - Polynomial.C r.s2_eval) with hNW
  have hroot : NW.eval r.zeta = 0 := by
    rw [hNW]
    simp only [Polynomial.eval_add, Polynomial.eval_sub, Polynomial.eval_mul,
      Polynomial.eval_C]
    rw [r.Rpoly_eval_zeta hg hgate hacc]
    have ha : r.a_eval = r.Ap.eval r.zeta := by
      unfold a_eval Ap
      rw [barycentric_eval_eq]
    have hb : r.b_eval = r.Bp.eval r.zeta := by
      unfold b_eval Bp
      rw [barycentric_eval_eq]
    have hc : r.c_eval = r.Cp.eval r.zeta := by
      unfold c_eval Cp
      rw [barycentric_eval_eq]
    have hs1 : r.s1_eval = r.S1p.eval r.zeta := by
      unfold s1_eval S1p
      rw [barycentric_eval_eq]
    have hs2 : r.s2_eval = r.S2p.eval r.zeta := by
      unfold s2_eval S2p
      rw [barycentric_eval_eq]
    rw [ha, hb, hc, hs1, hs2]
    ring
  have hNdeg : NW.natDegree < r.n + 1 := by
    have hterm : ∀ (a : F) (p : Polynomial F) (b : F), p.natDegree < r.n →
        (Polynomial.C a * (p - Polynomial.C b)).natDegree < r.n := by
      intro a p b hp
      refine lt_of_le_of_lt Polynomial.natDegree_mul_le ?_
      rw [Polynomial.natDegree_C]
      have hx : (p - Polynomial.C b).natDegree ≤ p.natDegree := by
        refine le_trans (Polynomial.natDegree_sub_le _ _) ?_
        rw [Polynomial.natDegree_C]
        omega
      omega
    have hR := r.Rpoly_natDegree_lt hg
    have h1 := hterm r.v r.Ap r.a_eval (interpPoly_natDegree_lt r.n hd _ _)
    have h2 := hterm (r.v ^ 2) r.Bp r.b_eval
      (interpPoly_natDegree_lt r.n hd _ _)
    have h3 := hterm (r.v ^ 3) r.Cp r.c_eval
      (interpPoly_natDegree_lt r.n hd _ _)
    have h4 := hterm (r.v ^ 4) r.S1p r.s1_eval
      (interpPoly_natDegree_lt r.n hd _ _)
    have h5 := hterm (r.v ^ 5) r.S2p r.s2_eval
      (interpPoly_natDegree_lt r.n hd _ _)
    rw [hNW]
    refine lt_of_le_of_lt (Polynomial.natDegree_add_le _ _) ?_
    refine max_lt ?_ (by omega)
    refine lt_of_le_of_lt (Polynomial.natDegree_add_le _ _) ?_
    refine max_lt ?_ (by omega)
    refine lt_of_le_of_lt (Polynomial.natDegree_add_le _ _) ?_
    refine max_lt ?_ (by omega)
    refine lt_of_le_of_lt (Polynomial.natDegree_add_le _ _) ?_
    refine max_lt ?_ (by omega)
    refine lt_of_le_of_lt (Polynomial.natDegree_add_le _ _) ?_
    exact max_lt (by omega) (by omega)
  obtain ⟨Q, hQfact, hQdeg⟩ := exists_quotient_by_linear NW r.zeta hroot
    r.n hg.hn0 hNdeg
  refine ⟨Q, hQdeg, ?_⟩
  unfold W_z_coeffs
  refine invFFT_of_poly hg.hmu hg.hchar hg.hk0 Q (by omega) _ ?_
  unfold W_z_values
  refine List.map_congr_left fun i hi => ?_
  have him : i < 4 * r.n := List.mem_range.mp hi
  have hx : r.fft_cofactor * r.mu ^ i - r.zeta ≠ 0 :=
    sub_ne_zero.mpr (hζ i him)
  have hAb : r.A_big.getD i 0 = r.Ap.eval (r.fft_cofactor * r.mu ^ i) := by
    unfold A_big Ap
    exact getD_to_coset_ext r.omega r.mu r.fft_cofactor r.A him
  have hBb : r.B_big.getD i 0 = r.Bp.eval (r.fft_cofactor * r.mu ^ i) := by
    unfold B_big Bp
    exact getD_to_coset_ext r.omega r.mu r.fft_cofactor r.B him
  have hCb : r.C_big.getD i 0 = r.Cp.eval (r.fft_cofactor * r.mu ^ i) := by
    unfold C_big Cp
    exact getD_to_coset_ext r.omega r.mu r.fft_cofactor r.C him
  have hS1b : r.S1_big.getD i 0 =
      r.S1p.eval (r.fft_cofactor * r.mu ^ i) := by
    unfold S1_big S1p
    exact getD_to_coset_ext r.omega r.mu r.fft_cofactor r.pk.S1 him
  have hS2b : r.S2_big.getD i 0 =
      r.S2p.eval (r.fft_cofactor * r.mu ^ i) := by
    unfold S2_big S2p
    exact getD_to_coset_ext r.omega r.mu r.fft_cofactor r.pk.S2 him
  have hnum : r.R_values.getD i 0 +
      r.v * (r.A_big.getD i 0 - r.a_eval) +
      r.v ^ 2 * (r.B_big.getD i 0 - r.b_eval) +
      r.v ^ 3 * (r.C_big.getD i 0 - r.c_eval) +
      r.v ^ 4 * (r.S1_big.getD i 0 - r.s1_eval) +
      r.v ^ 5 * (r.S2_big.getD i 0 - r.s2_eval) =
      (r.fft_cofactor * r.mu ^ i - r.zeta) *
        Q.eval (r.fft_cofactor * r.mu ^ i) := by
    have hfac := congrArg (Polynomial.eval (r.fft_cofactor * r.mu ^ i)) hQfact
    rw [hNW] at hfac
    simp only [Polynomial.eval_add, Polynomial.eval_sub, Polynomial.eval_mul,
      Polynomial.eval_C, Polynomial.eval_X] at hfac
    rw [r.R_values_getD hg him, hAb, hBb, hCb, hS1b, hS2b]
    linear_combination hfac
  rw [hnum, mul_div_cancel_left₀ _ hx]

theorem round5WzCheck_of (r : ProverRun F) (hg : r.Good)
    (hgate : r.gateHolds) (hacc : r.accHolds)
    (hζ : ∀ i, i < 4 * r.n → r.fft_cofactor * r.mu ^ i ≠ r.zeta) :
    r.round5WzCheck := by
  obtain ⟨Qz, hQzdeg, hQzeq⟩ := r.Wz_coeffs_eq hg hgate hacc hζ
  unfold ProverRun.round5WzCheck
  rw [hQzeq]
  exact polyToList_drop_replicate Qz r.n hg.hn0 hQzdeg

theorem round5WzwCheck_of (r : ProverRun F) (hg : r.Good)
    (hζω : ∀ i, i < 4 * r.n →
      r.fft_cofactor * r.mu ^ i ≠ r.zeta * r.omega) :
    r.round5WzwCheck := by
  obtain ⟨Qw, hQwdeg, hQweq⟩ := r.Wzw_coeffs_eq hg hζω
  unfold ProverRun.round5WzwCheck
  rw [hQweq]
  exact polyToList_drop_replicate Qw r.n hg.hn0 hQwdeg

/-- C6: for every consistent run in which `ζ` and `ζ·ω` avoid the coset,
both opening polynomials have degree `< n`: every monomial coefficient of
`W_z_big` and `W_zw_big` at an index in `[n, 4n)` is zero, and the two
round-5 degree assertions hold. -/
theorem C6_opening_poly_degrees (r : ProverRun F) (hg : r.Good)
    (hgate : r.gateHolds) (hacc : r.accHolds)
    (hζ : ∀ i, i < 4 * r.n → r.fft_cofactor * r.mu ^ i ≠ r.zeta)
    (hζω : ∀ i, i < 4 * r.n →
      r.fft_cofactor * r.mu ^ i ≠ r.zeta * r.omega) :
    (∀ j, r.n ≤ j → j < 4 * r.n →
      r.W_z_coeffs.getD j 0 = 0 ∧ r.W_zw_coeffs.getD j 0 = 0) ∧
      r.round5WzCheck ∧ r.round5WzwCheck := by
  obtain ⟨Qz, hQzdeg, hQzeq⟩ := r.Wz_coeffs_eq hg hgate hacc hζ
  obtain ⟨Qw, hQwdeg, hQweq⟩ := r.Wzw_coeffs_eq hg hζω
  refine ⟨?_, ?_, ?_⟩
  · intro j hj hj4
    constructor
    · rw [hQzeq, getD_polyToList _ hj4]
      exact Polynomial.coeff_eq_zero_of_natDegree_lt (by omega)
    · rw [hQweq, getD_polyToList _ hj4]
      exact Polynomial.coeff_eq_zero_of_natDegree_lt (by omega)
  · unfold round5WzCheck
    rw [hQzeq]
    exact polyToList_drop_replicate Qz r.n hg.hn0 hQzdeg
  · unfold round5WzwCheck
    rw [hQweq]
    exact polyToList_drop_replicate Qw r.n hg.hn0 hQwdeg

end ProverRun

/-- Witness for C6 at the concrete `GF(17)` run. -/
theorem C6_opening_poly_degrees_witness :
    rW.Good ∧ rW.gateHolds ∧ rW.accHolds ∧
      (∀ i, i < 4 * rW.n → rW.fft_cofactor * rW.mu ^ i ≠ rW.zeta) ∧
      (∀ i, i < 4 * rW.n →
        rW.fft_cofactor * rW.mu ^ i ≠ rW.zeta * rW.omega) ∧
      ((∀ j, rW.n ≤ j → j < 4 * rW.n →
        rW.W_z_coeffs.getD j 0 = 0 ∧ rW.W_zw_coeffs.getD j 0 = 0) ∧
        rW.round5WzCheck ∧ rW.round5WzwCheck) :=
  ⟨rW_good, by decide, by decide, by decide, by decide,
    ProverRun.C6_opening_poly_degrees rW rW_good (by decide) (by decide)
      (by decide) (by decide)⟩

/-- C7: `Proof.flatten` returns a mapping containing exactly the fifteen
fields `a_1, b_1, c_1, z_1, t_lo_1, t_mid_1, t_hi_1, a_eval, b_eval,
c_eval, s1_eval, s2_eval, z_shifted_eval, W_z_1, W_zw_1` — no more and no
fewer — in that order, each bound to the corresponding component of the
five round messages. -/
theorem C7_flatten_fields {G : Type} (p : Proof F G) :
    p.flatten =
      [("a_1", ProofItem.g p.msg_1.a_1),
       ("b_1", ProofItem.g p.msg_1.b_1),
       ("c_1", ProofItem.g p.msg_1.c_1),
       ("z_1", ProofItem.g p.msg_2.z_1),
       ("t_lo_1", ProofItem.g p.msg_3.t_lo_1),
       ("t_mid_1", ProofItem.g p.msg_3.t_mid_1),
       ("t_hi_1", ProofItem.g p.msg_3.t_hi_1),
       ("a_eval", ProofItem.s p.msg_4.a_eval),
       ("b_eval", ProofItem.s p.msg_4.b_eval),
       ("c_eval", ProofItem.s p.msg_4.c_eval),
       ("s1_eval", ProofItem.s p.msg_4.s1_eval),
       ("s2_eval", ProofItem.s p.msg_4.s2_eval),
       ("z_shifted_eval", ProofItem.s p.msg_4.z_shifted_eval),
       ("W_z_1", ProofItem.g p.msg_5.W_z_1),
       ("W_zw_1", ProofItem.g p.msg_5.W_zw_1)] ∧
    p.flatten.map Prod.fst =
      ["a_1", "b_1", "c_1", "z_1", "t_lo_1", "t_mid_1", "t_hi_1",
       "a_eval", "b_eval", "c_eval", "s1_eval", "s2_eval",
       "z_shifted_eval", "W_z_1", "W_zw_1"] ∧
    p.flatten.length = 15 :=
  ⟨rfl, rfl, rfl⟩

/-- C10: for a witness dict that does not contain the key `None`, `round_1`
(and hence `prove`) mutates the caller's dict in place by appending the
entry `None ↦ 0`; every other key is unchanged, and the new entry maps to
`0`. -/
theorem C10_witness_mutation {V G : Type} [DecidableEq V] (n : ℕ)
    (wires : List (GateWires V)) (pk : CommonPreprocessedInput F)
    (PI : List F) (commit : List F → G) (witness : Witness V F)
    (hnone : wlookup witness none = none) :
    (round_1 n wires pk PI commit witness).1 = witness ++ [(none, 0)] ∧
    (∀ s : V, wlookup (round_1 n wires pk PI commit witness).1 (some s) =
      wlookup witness (some s)) ∧
    wlookup (round_1 n wires pk PI commit witness).1 none = some 0 := by
  have h1 : (round_1 n wires pk PI commit witness).1 =
      insertNoneZero witness := rfl
  have h2 : insertNoneZero witness = witness ++ [(none, 0)] := by
    unfold insertNoneZero
    rw [hnone]
    rfl
  refine ⟨h1.trans h2, ?_, ?_⟩
  · intro s
    rw [h1, h2]
    unfold wlookup
    rw [List.find?_append]
    have hfind : ([((none : Option V), (0 : F))].find?
        fun q => decide (q.1 = some s)) = none := by
      simp
    rw [hfind, Option.or_none]
  · rw [h1, h2]
    unfold wlookup
    rw [List.find?_append]
    unfold wlookup at hnone
    have hfn : witness.find? (fun q => decide (q.1 = none)) = none := by
      cases hf : witness.find? fun q => decide (q.1 = (none : Option V))
      · rfl
      · rw [hf] at hnone
        simp at hnone
    rw [hfn]
    simp

/-- Witness for C10 at a concrete witness dict over `GF(17)`. -/
theorem C10_witness_mutation_witness :
    wlookup ([(some 0, 5), (some 1, 1)] : Witness ℕ (ZMod 17)) none =
      none ∧
    ((round_1 2 [] pkW [0, 0] (fun v => v)
        ([(some 0, 5), (some 1, 1)] : Witness ℕ (ZMod 17))).1 =
      [(some 0, 5), (some 1, 1)] ++ [(none, 0)] ∧
    (∀ s : ℕ, wlookup (round_1 2 [] pkW [0, 0] (fun v => v)
        ([(some 0, 5), (some 1, 1)] : Witness ℕ (ZMod 17))).1 (some s) =
      wlookup ([(some 0, 5), (some 1, 1)] : Witness ℕ (ZMod 17)) (some s)) ∧
    wlookup (round_1 2 [] pkW [0, 0] (fun v => v)
        ([(some 0, 5), (some 1, 1)] : Witness ℕ (ZMod 17))).1 none =
      some 0) :=
  ⟨by decide, C10_witness_mutation 2 [] pkW [0, 0] (fun v => v)
    [(some 0, 5), (some 1, 1)] (by decide)⟩

theorem getD_zipWith (f : F → F → F) (a b : List F) {i : ℕ}
    (ha : i < a.length) (hb : i < b.length) (d : F) :
    (List.zipWith f a b).getD i d = f (a.getD i d) (b.getD i d) := by
  have hl : i < (List.zipWith f a b).length := by
    rw [List.length_zipWith]
    omega
  have hga : a.getD i d = a[i] := by
    rw [List.getD_eq_getElem?_getD, List.getElem?_eq_getElem ha,
      Option.getD_some]
  have hgb : b.getD i d = b[i] := by
    rw [List.getD_eq_getElem?_getD, List.getElem?_eq_getElem hb,
      Option.getD_some]
  rw [hga, hgb, List.getD_eq_getElem?_getD, List.getElem?_eq_getElem hl,
    Option.getD_some]
  exact List.getElem_zipWith

theorem length_A_values {V : Type} [DecidableEq V] (n : ℕ)
    (wires : List (GateWires V)) (w : Witness V F) :
    (A_values n wires w).length = n := by
  simp [A_values]

theorem length_B_values {V : Type} [DecidableEq V] (n : ℕ)
    (wires : List (GateWires V)) (w : Witness V F) :
    (B_values n wires w).length = n := by
  simp [B_values]

theorem length_C_values {V : Type} [DecidableEq V] (n : ℕ)
    (wires : List (GateWires V)) (w : Witness V F) :
    (C_values n wires w).length = n := by
  simp [C_values]

/-- The gate-constraint combination at row `i`, written entrywise. -/
def gateAt (A B C PI : List F) (pk : CommonPreprocessedInput F)
    (i : ℕ) : F :=
  A.getD i 0 * pk.QL.getD i 0 + B.getD i 0 * pk.QR.getD i 0 +
  A.getD i 0 * B.getD i 0 * pk.QM.getD i 0 + C.getD i 0 * pk.QO.getD i 0 +
  PI.getD i 0 + pk.QC.getD i 0

theorem length_gateVector (n : ℕ) (A B C PI : List F)
    (pk : CommonPreprocessedInput F) (hA : A.length = n) (hB : B.length = n)
    (hC : C.length = n) (hPI : PI.length = n) (hQL : pk.QL.length = n)
    (hQR : pk.QR.length = n) (hQM : pk.QM.length = n) (hQO : pk.QO.length = n)
    (hQC : pk.QC.length = n) : (gateVector A B C PI pk).length = n := by
  unfold gateVector polyAdd polyMul
  simp only [List.length_zipWith]
  omega

theorem polyAdd_spec (n : ℕ) (X Y : List F) (hX : X.length = n)
    (hY : Y.length = n) :
    (polyAdd X Y).length = n ∧
      ∀ i, i < n → (polyAdd X Y).getD i 0 = X.getD i 0 + Y.getD i 0 := by
  constructor
  · unfold polyAdd
    rw [List.length_zipWith]
    omega
  · intro i hi
    exact getD_zipWith _ _ _ (by omega) (by omega) 0

theorem polyMul_spec (n : ℕ) (X Y : List F) (hX : X.length = n)
    (hY : Y.length = n) :
    (polyMul X Y).length = n ∧
      ∀ i, i < n → (polyMul X Y).getD i 0 = X.getD i 0 * Y.getD i 0 := by
  constructor
  · unfold polyMul
    rw [List.length_zipWith]
    omega
  · intro i hi
    exact getD_zipWith _ _ _ (by omega) (by omega) 0

theorem getD_gateVector (n : ℕ) (A B C PI : List F)
    (pk : CommonPreprocessedInput F) (hA : A.length = n) (hB : B.length = n)
    (hC : C.length = n) (hPI : PI.length = n) (hQL : pk.QL.length = n)
    (hQR : pk.QR.length = n) (hQM : pk.QM.length = n) (hQO : pk.QO.length = n)
    (hQC : pk.QC.length = n) {i : ℕ} (hi : i < n) :
    (gateVector A B C PI pk).getD i 0 = gateAt A B C PI pk i := by
  obtain ⟨hm1l, hm1⟩ := polyMul_spec n A pk.QL hA hQL
  obtain ⟨hm2l, hm2⟩ := polyMul_spec n B pk.QR hB hQR
  obtain ⟨hABl, hAB⟩ := polyMul_spec n A B hA hB
  obtain ⟨hm3l, hm3⟩ := polyMul_spec n (polyMul A B) pk.QM hABl hQM
  obtain ⟨hm4l, hm4⟩ := polyMul_spec n C pk.QO hC hQO
  obtain ⟨hs1l, hs1⟩ := polyAdd_spec n _ _ hm1l hm2l
  obtain ⟨hs2l, hs2⟩ := polyAdd_spec n _ _ hs1l hm3l
  obtain ⟨hs3l, hs3⟩ := polyAdd_spec n _ _ hs2l hm4l
  obtain ⟨hs4l, hs4⟩ := polyAdd_spec n _ _ hs3l hPI
  obtain ⟨hs5l, hs5⟩ := polyAdd_spec n _ _ hs4l hQC
  unfold gateVector
  rw [hs5 i hi, hs4 i hi, hs3 i hi, hs2 i hi, hs1 i hi, hm1 i hi, hm2 i hi,
    hm3 i hi, hAB i hi, hm4 i hi]
  rfl

theorem gateVector_eq_replicate_iff (n : ℕ) (A B C PI : List F)
    (pk : CommonPreprocessedInput F) (hA : A.length = n) (hB : B.length = n)
    (hC : C.length = n) (hPI : PI.length = n) (hQL : pk.QL.length = n)
    (hQR : pk.QR.length = n) (hQM : pk.QM.length = n) (hQO : pk.QO.length = n)
    (hQC : pk.QC.length = n) :
    gateVector A B C PI pk = List.replicate n 0 ↔
      ∀ i, i < n → gateAt A B C PI pk i = 0 := by
  constructor
  · intro h i hi
    rw [← getD_gateVector n A B C PI pk hA hB hC hPI hQL hQR hQM hQO hQC hi,
      h, getD_replicate_zero]
  · intro h
    apply list_eq_of_getD _ _ 0
    · rw [length_gateVector n A B C PI pk hA hB hC hPI hQL hQR hQM hQO hQC,
        List.length_replicate]
    · intro i hi
      rw [length_gateVector n A B C PI pk hA hB hC hPI hQL hQR hQM hQO
        hQC] at hi
      rw [getD_replicate_zero,
        getD_gateVector n A B C PI pk hA hB hC hPI hQL hQR hQM hQO hQC hi]
      exact h i hi

/-- C1: `round_1` aborts — raising before any `Message1` is returned — if
and only if the gate identity `A·QL + B·QR + A·B·QM + C·QO + PI + QC = 0`
fails at some `ω^i`, `i < n`, for the wire vectors built from the witness;
when the identity holds everywhere it returns the commitments
`(commit A, commit B, commit C)`.  The last conjunct identifies the
entrywise identity with the polynomial identity at the roots of unity. -/
theorem C1_round1_gate_abort {V G : Type} [DecidableEq V] (n : ℕ)
    (wires : List (GateWires V)) (pk : CommonPreprocessedInput F)
    (PI : List F) (ω : F) (commit : List F → G) (witness : Witness V F)
    (hQL : pk.QL.length = n) (hQR : pk.QR.length = n)
    (hQM : pk.QM.length = n) (hQO : pk.QO.length = n)
    (hQC : pk.QC.length = n) (hPI : PI.length = n)
    (hdom : ∀ w ∈ wires, (wlookup (insertNoneZero witness) w.L).isSome ∧
      (wlookup (insertNoneZero witness) w.R).isSome ∧
      (wlookup (insertNoneZero witness) w.O).isSome)
    (hω : isPrimRoot ω n) (hnF : (n : F) ≠ 0) :
    (((round_1 n wires pk PI commit witness).2 = none) ↔
      ∃ i, i < n ∧ gateAt (A_values n wires (insertNoneZero witness))
        (B_values n wires (insertNoneZero witness))
        (C_values n wires (insertNoneZero witness)) PI pk i ≠ 0) ∧
    ((∀ i, i < n → gateAt (A_values n wires (insertNoneZero witness))
        (B_values n wires (insertNoneZero witness))
        (C_values n wires (insertNoneZero witness)) PI pk i = 0) →
      (round_1 n wires pk PI commit witness).2 =
        some ⟨commit (A_values n wires (insertNoneZero witness)),
          commit (B_values n wires (insertNoneZero witness)),
          commit (C_values n wires (insertNoneZero witness))⟩) ∧
    (∀ i, i < n →
      (interpPoly n ω (A_values n wires (insertNoneZero witness))).eval
          (ω ^ i) *
        (interpPoly n ω pk.QL).eval (ω ^ i) +
      (interpPoly n ω (B_values n wires (insertNoneZero witness))).eval
          (ω ^ i) *
        (interpPoly n ω pk.QR).eval (ω ^ i) +
      (interpPoly n ω (A_values n wires (insertNoneZero witness))).eval
          (ω ^ i) *
        (interpPoly n ω (B_values n wires (insertNoneZero witness))).eval
          (ω ^ i) *
        (interpPoly n ω pk.QM).eval (ω ^ i) +
      (interpPoly n ω (C_values n wires (insertNoneZero witness))).eval
          (ω ^ i) *
        (interpPoly n ω pk.QO).eval (ω ^ i) +
      (interpPoly n ω PI).eval (ω ^ i) +
      (interpPoly n ω pk.QC).eval (ω ^ i) =
      gateAt (A_values n wires (insertNoneZero witness))
        (B_values n wires (insertNoneZero witness))
        (C_values n wires (insertNoneZero witness)) PI pk i) := by
  set w1 := insertNoneZero witness with hw1
  set A := A_values n wires w1 with hAdef
  set B := B_values n wires w1 with hBdef
  set C := C_values n wires w1 with hCdef
  have hA : A.length = n := length_A_values n wires w1
  have hB : B.length = n := length_B_values n wires w1
  have hC : C.length = n := length_C_values n wires w1
  have hsplit : (round_1 n wires pk PI commit witness).2 =
      if gateVector A B C PI pk = List.replicate n 0 then
        some ⟨commit A, commit B, commit C⟩
      else none := rfl
  have hiff := gateVector_eq_replicate_iff n A B C PI pk hA hB hC hPI hQL
    hQR hQM hQO hQC
  refine ⟨?_, ?_, ?_⟩
  · rw [hsplit]
    by_cases hgv : gateVector A B C PI pk = List.replicate n 0
    · rw [if_pos hgv]
      simp only [reduceCtorEq, false_iff]
      push_neg
      exact fun i hi => hiff.mp hgv i hi
    · rw [if_neg hgv]
      simp only [true_iff]
      have hne := hgv
      rw [hiff] at hne
      push_neg at hne
      obtain ⟨i, hi, hne2⟩ := hne
      exact ⟨i, hi, hne2⟩
  · intro h
    rw [hsplit, if_pos (hiff.mpr h)]
  · intro i hi
    rw [interpPoly_eval_root hω hnF A hA hi,
      interpPoly_eval_root hω hnF B hB hi,
      interpPoly_eval_root hω hnF C hC hi,
      interpPoly_eval_root hω hnF PI hPI hi,
      interpPoly_eval_root hω hnF pk.QL hQL hi,
      interpPoly_eval_root hω hnF pk.QR hQR hi,
      interpPoly_eval_root hω hnF pk.QM hQM hi,
      interpPoly_eval_root hω hnF pk.QO hQO hi,
      interpPoly_eval_root hω hnF pk.QC hQC hi]
    rfl

/-- Concrete wires for the round-1 witness: row 0 reads variable `0` on the
left and writes variable `1`; row 1 is the empty gate. -/
def wiresW : List (GateWires ℕ) :=
  [⟨some 0, none, some 1⟩, ⟨none, none, none⟩]

/-- Concrete witness dict for the round-1 witness. -/
def witnessW : Witness ℕ (ZMod 17) := [(some 0, 5), (some 1, 1)]

/-- Witness for C1 at the concrete `GF(17)` circuit. -/
theorem C1_round1_gate_abort_witness :
    (pkW.QL.length = 2 ∧ pkW.QR.length = 2 ∧ pkW.QM.length = 2 ∧
      pkW.QO.length = 2 ∧ pkW.QC.length = 2 ∧
      ([0, 0] : List (ZMod 17)).length = 2 ∧
      (∀ w ∈ wiresW, (wlookup (insertNoneZero witnessW) w.L).isSome ∧
        (wlookup (insertNoneZero witnessW) w.R).isSome ∧
        (wlookup (insertNoneZero witnessW) w.O).isSome) ∧
      isPrimRoot (16 : ZMod 17) 2 ∧ ((2 : ℕ) : ZMod 17) ≠ 0) ∧
    ((((round_1 2 wiresW pkW [0, 0] (fun v => v) witnessW).2 = none) ↔
      ∃ i, i < 2 ∧ gateAt (A_values 2 wiresW (insertNoneZero witnessW))
        (B_values 2 wiresW (insertNoneZero witnessW))
        (C_values 2 wiresW (insertNoneZero witnessW)) [0, 0] pkW i ≠ 0) ∧
    ((∀ i, i < 2 → gateAt (A_values 2 wiresW (insertNoneZero witnessW))
        (B_values 2 wiresW (insertNoneZero witnessW))
        (C_values 2 wiresW (insertNoneZero witnessW)) [0, 0] pkW i = 0) →
      (round_1 2 wiresW pkW [0, 0] (fun v => v) witnessW).2 =
        some ⟨A_values 2 wiresW (insertNoneZero witnessW),
          B_values 2 wiresW (insertNoneZero witnessW),
          C_values 2 wiresW (insertNoneZero witnessW)⟩) ∧
    (∀ i, i < 2 →
      (interpPoly 2 (16 : ZMod 17)
          (A_values 2 wiresW (insertNoneZero witnessW))).eval (16 ^ i) *
        (interpPoly 2 (16 : ZMod 17) pkW.QL).eval (16 ^ i) +
      (interpPoly 2 (16 : ZMod 17)
          (B_values 2 wiresW (insertNoneZero witnessW))).eval (16 ^ i) *
        (interpPoly 2 (16 : ZMod 17) pkW.QR).eval (16 ^ i) +
      (interpPoly 2 (16 : ZMod 17)
          (A_values 2 wiresW (insertNoneZero witnessW))).eval (16 ^ i) *
        (interpPoly 2 (16 : ZMod 17)
          (B_values 2 wiresW (insertNoneZero witnessW))).eval (16 ^ i) *
        (interpPoly 2 (16 : ZMod 17) pkW.QM).eval (16 ^ i) +
      (interpPoly 2 (16 : ZMod 17)
          (C_values 2 wiresW (insertNoneZero witnessW))).eval (16 ^ i) *
        (interpPoly 2 (16 : ZMod 17) pkW.QO).eval (16 ^ i) +
      (interpPoly 2 (16 : ZMod 17) ([0, 0] : List (ZMod 17))).eval (16 ^ i) +
      (interpPoly 2 (16 : ZMod 17) pkW.QC).eval (16 ^ i) =
      gateAt (A_values 2 wiresW (insertNoneZero witnessW))
        (B_values 2 wiresW (insertNoneZero witnessW))
        (C_values 2 wiresW (insertNoneZero witnessW)) [0, 0] pkW i)) :=
  ⟨⟨rfl, rfl, rfl, rfl, rfl, rfl, by decide, by decide, by decide⟩,
    C1_round1_gate_abort 2 wiresW pkW [0, 0] 16 (fun v => v) witnessW
      rfl rfl rfl rfl rfl rfl (by decide) (by decide) (by decide)⟩

/-- C2: `round_2` computes the accumulator by the recurrence `Z_0 = 1`,
`Z_(i+1) = Z_i · num_i / den_i`; it succeeds exactly when `Z_n = 1` and the
wrap-around local identity holds at every row, and then the kept `Z` is the
length-`n` prefix `[Z_0, …, Z_(n-1)]` with `Z(ω^0) = 1`, committed as the
message. -/
theorem C2_round2_accumulator {G : Type} (n : ℕ) (β γ ω : F)
    (A B C : List F) (pk : CommonPreprocessedInput F) (commit : List F → G)
    (hn : 0 < n) :
    ((∃ res, round_2 n β γ ω A B C pk commit = some res) ↔
      (accZ β γ ω A B C pk n = 1 ∧
        round2LocalCheck n β γ ω A B C pk
          ((List.range n).map (accZ β γ ω A B C pk)))) ∧
    (∀ i : ℕ, accZ β γ ω A B C pk (i + 1) =
      accZ β γ ω A B C pk i *
        rlc β γ (A.getD i 0) (ω ^ i) *
        rlc β γ (B.getD i 0) (2 * ω ^ i) *
        rlc β γ (C.getD i 0) (3 * ω ^ i) /
        rlc β γ (A.getD i 0) (pk.S1.getD i 0) /
        rlc β γ (B.getD i 0) (pk.S2.getD i 0) /
        rlc β γ (C.getD i 0) (pk.S3.getD i 0)) ∧
    (∀ msg Z, round_2 n β γ ω A B C pk commit = some (msg, Z) →
      Z = (List.range n).map (accZ β γ ω A B C pk) ∧ Z.length = n ∧
      Z.getD 0 0 = 1 ∧ msg = ⟨commit Z⟩ ∧
      round2LocalCheck n β γ ω A B C pk Z) := by
  set f := accZ β γ ω A B C pk with hf
  have htrim : ((List.range (n + 1)).map f).take n =
      (List.range n).map f := by
    rw [← List.map_take, List.take_range]
    have hmin : min n (n + 1) = n := by omega
    rw [hmin]
  have hlast : ((List.range (n + 1)).map f).getD n 0 = f n :=
    getD_range_map _ (by omega) 0
  have hr2 : round_2 n β γ ω A B C pk commit =
      if f n = 1 then
        (if round2LocalCheck n β γ ω A B C pk ((List.range n).map f) then
          some (⟨commit ((List.range n).map f)⟩, (List.range n).map f)
        else none)
      else none := by
    simp only [round_2]
    rw [hlast, htrim]
  refine ⟨?_, fun i => rfl, ?_⟩
  · rw [hr2]
    constructor
    · intro ⟨res, hres⟩
      by_cases h1 : f n = 1
      · rw [if_pos h1] at hres
        by_cases h2 : round2LocalCheck n β γ ω A B C pk
            ((List.range n).map f)
        · exact ⟨h1, h2⟩
        · rw [if_neg h2] at hres
          exact absurd hres (by simp)
      · rw [if_neg h1] at hres
        exact absurd hres (by simp)
    · intro ⟨h1, h2⟩
      rw [if_pos h1, if_pos h2]
      exact ⟨_, rfl⟩
  · intro msg Z hmz
    rw [hr2] at hmz
    by_cases h1 : f n = 1
    · rw [if_pos h1] at hmz
      by_cases h2 : round2LocalCheck n β γ ω A B C pk
          ((List.range n).map f)
      · rw [if_pos h2] at hmz
        have hZ : Z = (List.range n).map f := by
          have := Option.some.inj hmz
          exact (congrArg Prod.snd this).symm
        have hmsg : msg = ⟨commit ((List.range n).map f)⟩ := by
          have := Option.some.inj hmz
          exact (congrArg Prod.fst this).symm
        refine ⟨hZ, by rw [hZ]; simp, ?_, ?_, ?_⟩
        · rw [hZ, getD_range_map _ hn]
          rfl
        · rw [hmsg, hZ]
        · rw [hZ]
          exact h2
      · rw [if_neg h2] at hmz
        exact absurd hmz (by simp)
    · rw [if_neg h1] at hmz
      exact absurd hmz (by simp)

/-- Witness for C2 at the concrete `GF(17)` run. -/
theorem C2_round2_accumulator_witness :
    (0 : ℕ) < 2 ∧
    (((∃ res, round_2 2 (1 : ZMod 17) 0 16 [5, 5] [0, 0] [1, 0] pkW
        (fun v => v) = some res) ↔
      (accZ (1 : ZMod 17) 0 16 [5, 5] [0, 0] [1, 0] pkW 2 = 1 ∧
        round2LocalCheck 2 (1 : ZMod 17) 0 16 [5, 5] [0, 0] [1, 0] pkW
          ((List.range 2).map
            (accZ (1 : ZMod 17) 0 16 [5, 5] [0, 0] [1, 0] pkW)))) ∧
    (∀ i : ℕ, accZ (1 : ZMod 17) 0 16 [5, 5] [0, 0] [1, 0] pkW (i + 1) =
      accZ (1 : ZMod 17) 0 16 [5, 5] [0, 0] [1, 0] pkW i *
        rlc 1 0 (([5, 5] : List (ZMod 17)).getD i 0) (16 ^ i) *
        rlc 1 0 (([0, 0] : List (ZMod 17)).getD i 0) (2 * 16 ^ i) *
        rlc 1 0 (([1, 0] : List (ZMod 17)).getD i 0) (3 * 16 ^ i) /
        rlc 1 0 (([5, 5] : List (ZMod 17)).getD i 0) (pkW.S1.getD i 0) /
        rlc 1 0 (([0, 0] : List (ZMod 17)).getD i 0) (pkW.S2.getD i 0) /
        rlc 1 0 (([1, 0] : List (ZMod 17)).getD i 0) (pkW.S3.getD i 0)) ∧
    (∀ msg Z, round_2 2 (1 : ZMod 17) 0 16 [5, 5] [0, 0] [1, 0] pkW
        (fun v => v) = some (msg, Z) →
      Z = (List.range 2).map
        (accZ (1 : ZMod 17) 0 16 [5, 5] [0, 0] [1, 0] pkW) ∧
      Z.length = 2 ∧ Z.getD 0 0 = 1 ∧ msg = ⟨Z⟩ ∧
      round2LocalCheck 2 (1 : ZMod 17) 0 16 [5, 5] [0, 0] [1, 0] pkW Z)) :=
  ⟨by decide, C2_round2_accumulator 2 (1 : ZMod 17) 0 16 [5, 5] [0, 0]
    [1, 0] pkW (fun v => v) (by decide)⟩

/-- The nine polynomial values passed to `setup.commit` during a complete
`prove` call, in call order, each with the basis tag it carries at the call
site.  `A`, `B`, `C` (round 1, `prover.py` lines 111-127) and `Z` (round 2,
lines 184-185) are constructed with `Basis.LAGRANGE` directly in the source;
`T1`, `T2`, `T3` (round 3, lines 299-318) and `W_z`, `W_zw` (round 5, lines
456-457 and 476-477) are built as `Polynomial(chunk, MONOMIAL).fft()`, and
(modelled from the spec, `poly.py` not in `src/`) `fft` swaps the basis, so
they reach `commit` in `LAGRANGE` form.  On an assert failure only a prefix
of these calls is reached. -/
def proveCommits (r : ProverRun F) : List (Poly F) :=
  [⟨r.A, Basis.lagrange⟩, ⟨r.B, Basis.lagrange⟩, ⟨r.C, Basis.lagrange⟩,
   ⟨r.Z, Basis.lagrange⟩,
   ⟨r.T1, Basis.lagrange⟩, ⟨r.T2, Basis.lagrange⟩, ⟨r.T3, Basis.lagrange⟩,
   ⟨r.W_z, Basis.lagrange⟩, ⟨r.W_zw, Basis.lagrange⟩]

/-- Counterexample to C8: at the concrete `GF(17)` run, it is not the case
that every polynomial passed to `setup.commit` is in `MONOMIAL` basis — the
very first commit (of `A`, `prover.py` line 125) receives a `LAGRANGE`
polynomial. -/
theorem C8_commit_basis_counterexample :
    ¬ ∀ p ∈ proveCommits rW, p.basis = Basis.monomial := by
  intro h
  have hmem : (⟨rW.A, Basis.lagrange⟩ : Poly (ZMod 17)) ∈
      proveCommits rW := by
    simp [proveCommits]
  have := h _ hmem
  simp at this

/-- C8 (amended): every polynomial passed to `setup.commit` during a prove
call is in `LAGRANGE` basis with length exactly `n` at the call site. -/
theorem C8_commit_basis_amended (r : ProverRun F) (hg : r.Good) :
    ∀ p ∈ proveCommits r, p.basis = Basis.lagrange ∧
      p.values.length = r.n := by
  intro p hp
  simp only [proveCommits, List.mem_cons, List.not_mem_nil, or_false] at hp
  rcases hp with rfl | rfl | rfl | rfl | rfl | rfl | rfl | rfl | rfl
  · exact ⟨rfl, hg.hA⟩
  · exact ⟨rfl, hg.hB⟩
  · exact ⟨rfl, hg.hC⟩
  · exact ⟨rfl, hg.hZ⟩
  · exact ⟨rfl, length_fftEval _ _ _ _⟩
  · exact ⟨rfl, length_fftEval _ _ _ _⟩
  · exact ⟨rfl, length_fftEval _ _ _ _⟩
  · exact ⟨rfl, length_fftEval _ _ _ _⟩
  · exact ⟨rfl, length_fftEval _ _ _ _⟩

/-- Witness for the amended C8 at the concrete `GF(17)` run. -/
theorem C8_commit_basis_amended_witness :
    rW.Good ∧ ∀ p ∈ proveCommits rW, p.basis = Basis.lagrange ∧
      p.values.length = rW.n :=
  ⟨rW_good, C8_commit_basis_amended rW rW_good⟩

/-- The attributes `prove` and its rounds assign on the `Prover` object
(`self.…` in `prover.py`), restricted to the fields the lifetime claim
lists; each starts as `none` (absent) on a fresh object.  The source
additionally stores scratch attributes (`quarter_roots`, `A_big`, …,
`S3_big`), which only add to the retained state. -/
structure ProverObj (F : Type) where
  PI : Option (List F) := none
  A : Option (List F) := none
  B : Option (List F) := none
  C : Option (List F) := none
  beta : Option F := none
  gamma : Option F := none
  Z : Option (List F) := none
  alpha : Option F := none
  fft_cofactor : Option F := none
  T1 : Option (List F) := none
  T2 : Option (List F) := none
  T3 : Option (List F) := none
  zeta : Option F := none
  a_eval : Option F := none
  b_eval : Option F := none
  c_eval : Option F := none
  s1_eval : Option F := none
  s2_eval : Option F := none
  z_shifted_eval : Option F := none
  v : Option F := none
deriving DecidableEq

/-- The `self.<attr> = …` assignments a complete `prove` call executes on
the claimed fields, in program order (`prover.py` lines 63, 120-122, 67,
186, 71, 302-304, 75, 341, 79): `prove` is a straight-line five-round
pipeline, so the trace is a fixed list. -/
def proveAssignTrace : List String :=
  ["PI", "A", "B", "C", "beta", "gamma", "Z", "alpha", "fft_cofactor",
   "T1", "T2", "T3", "zeta", "a_eval", "b_eval", "c_eval", "s1_eval",
   "s2_eval", "z_shifted_eval", "v"]

/-- The `Prover` object as it stands when `prove` returns: every claimed
field holds the value assigned during the call — Python object attributes
are not deleted on return. -/
def proveFinalState (r : ProverRun F) : ProverObj F :=
  { PI := some r.PI, A := some r.A, B := some r.B, C := some r.C,
    beta := some r.beta, gamma := some r.gamma, Z := some r.Z,
    alpha := some r.alpha, fft_cofactor := some r.fft_cofactor,
    T1 := some r.T1, T2 := some r.T2, T3 := some r.T3,
    zeta := some r.zeta, a_eval := some r.a_eval, b_eval := some r.b_eval,
    c_eval := some r.c_eval, s1_eval := some r.s1_eval,
    s2_eval := some r.s2_eval, z_shifted_eval := some r.z_shifted_eval,
    v := some r.v }

/-- All assertions of a `prove` run pass (so the call returns a proof): the
round-1 gate check, the round-2 `Z_n = 1` and local checks together with the
stored `Z` being the computed prefix, and the round-3/round-5 checks. -/
def proveOk (r : ProverRun F) : Prop :=
  r.gateHolds ∧
  accZ r.beta r.gamma r.omega r.A r.B r.C r.pk r.n = 1 ∧
  r.Z = (List.range r.n).map (accZ r.beta r.gamma r.omega r.A r.B r.C r.pk) ∧
  round2LocalCheck r.n r.beta r.gamma r.omega r.A r.B r.C r.pk r.Z ∧
  r.round3DegreeCheck ∧ r.round3CrossCheck ∧ r.round5RCheck ∧
  r.round5WzCheck ∧ r.round5WzwCheck

instance (r : ProverRun F) : Decidable (proveOk r) := by
  unfold proveOk; infer_instance

/-- Reconstruction of the accumulator recurrence from the accumulator
relations: when no denominator vanishes, the recurrence values agree with
the stored `Z` and wrap around to `1`. -/
theorem ProverRun.accZ_spec (r : ProverRun F) (hn : 0 < r.n)
    (hZlen : r.Z.length = r.n) (hacc : r.accHolds)
    (hden : ∀ l, l < r.n →
      rlc r.beta r.gamma (r.A.getD l 0) (r.pk.S1.getD l 0) ≠ 0 ∧
      rlc r.beta r.gamma (r.B.getD l 0) (r.pk.S2.getD l 0) ≠ 0 ∧
      rlc r.beta r.gamma (r.C.getD l 0) (r.pk.S3.getD l 0) ≠ 0) :
    accZ r.beta r.gamma r.omega r.A r.B r.C r.pk r.n = 1 ∧
      r.Z = (List.range r.n).map
        (accZ r.beta r.gamma r.omega r.A r.B r.C r.pk) := by
  have key : ∀ i, i ≤ r.n →
      accZ r.beta r.gamma r.omega r.A r.B r.C r.pk i =
        (if i = r.n then 1 else r.Z.getD i 0) := by
    intro i
    induction i with
    | zero =>
      intro h0
      rw [if_neg (by omega)]
      simp only [accZ]
      exact hacc.1.symm
    | succ i ih =>
      intro hsn
      have hi : i < r.n := by omega
      have haux := ih (by omega)
      rw [if_neg (by omega)] at haux
      have hacc2 := hacc.2 i hi
      obtain ⟨hd1, hd2, hd3⟩ := hden i hi
      simp only [accZ]
      rw [haux]
      rw [div_div, div_div]
      by_cases hin : i + 1 = r.n
      · rw [if_pos hin]
        have hmod : (i + 1) % r.n = 0 := by
          rw [hin, Nat.mod_self]
        rw [hmod, hacc.1] at hacc2
        rw [div_eq_iff (mul_ne_zero hd1 (mul_ne_zero hd2 hd3))]
        linear_combination hacc2
      · rw [if_neg hin]
        have hmod : (i + 1) % r.n = i + 1 := Nat.mod_eq_of_lt (by omega)
        rw [hmod] at hacc2
        rw [div_eq_iff (mul_ne_zero hd1 (mul_ne_zero hd2 hd3))]
        linear_combination hacc2
  constructor
  · have hk := key r.n (le_refl _)
    rwa [if_pos rfl] at hk
  · apply list_eq_of_getD _ _ 0
    · rw [hZlen]
      simp
    · intro i hi
      rw [hZlen] at hi
      rw [getD_range_map _ hi, key i (by omega), if_neg (by omega)]

/-- Counterexample to C9: at the concrete `GF(17)` run every assertion
passes — `prove` returns — yet the `Prover` object is not the fresh
all-`none` object: the intermediate fields (`A`, `Z`, `T1`, …) are all still
present, so they are not discarded when the call returns. -/
theorem C9_state_counterexample :
    proveOk rW ∧ proveFinalState rW ≠ ({} : ProverObj (ZMod 17)) ∧
      (proveFinalState rW).A ≠ none ∧ (proveFinalState rW).Z ≠ none ∧
      (proveFinalState rW).T1 ≠ none := by
  have hg := rW_good
  have hgate : rW.gateHolds := by decide
  have hacc : rW.accHolds := by decide
  have hden : ∀ l, l < rW.n →
      rlc rW.beta rW.gamma (rW.A.getD l 0) (rW.pk.S1.getD l 0) ≠ 0 ∧
      rlc rW.beta rW.gamma (rW.B.getD l 0) (rW.pk.S2.getD l 0) ≠ 0 ∧
      rlc rW.beta rW.gamma (rW.C.getD l 0) (rW.pk.S3.getD l 0) ≠ 0 := by
    decide
  obtain ⟨hlast, hmap⟩ := rW.accZ_spec hg.hn0 hg.hZ hacc hden
  have hlocal : round2LocalCheck rW.n rW.beta rW.gamma rW.omega rW.A rW.B
      rW.C rW.pk rW.Z := by
    intro i hi
    rw [sub_eq_zero]
    exact hacc.2 i hi
  have hζ : ∀ i, i < 4 * rW.n →
      rW.fft_cofactor * rW.mu ^ i ≠ rW.zeta := by decide
  have hζω : ∀ i, i < 4 * rW.n →
      rW.fft_cofactor * rW.mu ^ i ≠ rW.zeta * rW.omega := by decide
  refine ⟨⟨hgate, hlast, hmap, hlocal,
    rW.round3DegreeCheck_of hg hgate hacc,
    rW.round3CrossCheck_of hg hgate hacc,
    rW.round5RCheck_of hg hgate hacc,
    rW.round5WzCheck_of hg hgate hacc hζ,
    rW.round5WzwCheck_of hg hζω⟩,
    ?_, by simp [proveFinalState], by simp [proveFinalState],
    by simp [proveFinalState]⟩
  intro h
  have hA := congrArg ProverObj.A h
  simp [proveFinalState] at hA

/-- C9 (amended): every claimed intermediate field is assigned exactly once
per `prove` call (the pipeline is straight-line, so each name occurs exactly
once in the assignment trace and is never mutated afterwards), but the
fields are retained on the `Prover` object after `prove` returns rather
than discarded. -/
theorem C9_state_amended (r : ProverRun F) :
    (∀ name ∈ proveAssignTrace, proveAssignTrace.count name = 1) ∧
    proveAssignTrace.length = 20 ∧
    (proveFinalState r).PI = some r.PI ∧
    (proveFinalState r).A = some r.A ∧
    (proveFinalState r).B = some r.B ∧
    (proveFinalState r).C = some r.C ∧
    (proveFinalState r).beta = some r.beta ∧
    (proveFinalState r).gamma = some r.gamma ∧
    (proveFinalState r).Z = some r.Z ∧
    (proveFinalState r).alpha = some r.alpha ∧
    (proveFinalState r).fft_cofactor = some r.fft_cofactor ∧
    (proveFinalState r).T1 = some r.T1 ∧
    (proveFinalState r).T2 = some r.T2 ∧
    (proveFinalState r).T3 = some r.T3 ∧
    (proveFinalState r).zeta = some r.zeta ∧
    (proveFinalState r).a_eval = some r.a_eval ∧
    (proveFinalState r).b_eval = some r.b_eval ∧
    (proveFinalState r).c_eval = some r.c_eval ∧
    (proveFinalState r).s1_eval = some r.s1_eval ∧
    (proveFinalState r).s2_eval = some r.s2_eval ∧
    (proveFinalState r).z_shifted_eval = some r.z_shifted_eval ∧
    (proveFinalState r).v = some r.v :=
  ⟨by decide, rfl, rfl, rfl, rfl, rfl, rfl, rfl, rfl, rfl, rfl, rfl, rfl,
   rfl, rfl, rfl, rfl, rfl, rfl, rfl, rfl, rfl⟩

end PlonkProver
